import Mathlib

/-!
Chromalog: a shallow embedding of `chromalog.h`.

Strings (`std::string`) are lists of characters.  A logger object is a record of the
fields of `class chromalog`; the two output streams are explicit lists of written lines.
The clock, the thread id, the terminal test and the file system are inputs (`Env`).
Shared pointers are optional indices into a heap of logger objects, so that identity of
instances can be stated.  Variadic arguments of the emission functions are given as the
list of their rendered texts (the results of `to_string_safe`, in order).  Where a
property is about the work an operation does rather than about its result (what is
rendered, which mutex is taken and when), the operation is given a trace of events: the
`std::lock_guard` scopes of the source, the calls of `to_string_safe` and `replace`, the
reads of the clock and of the thread id, and the writes.
-/

/-- The enumeration `chromalog::level`. -/
inductive chromalog.level where
  | trace
  | debug
  | info
  | warning
  | error
  | critical
  | off
  deriving DecidableEq, Repr

/-- The numeric value of an enumerator of `chromalog::level`. -/
def chromalog.level.toNat : chromalog.level → Nat
  | .trace => 0
  | .debug => 1
  | .info => 2
  | .warning => 3
  | .error => 4
  | .critical => 5
  | .off => 6

/-- The data members of one `chromalog` object.  `log_file` is the stream: `none` when it
is not open, `some p` when it is open on the file it was opened with at path `p`. -/
structure chromalog where
  log_level : chromalog.level
  logger_name : List Char
  enable_colors : Bool
  log_file_path : List Char
  log_file : Option (List Char)
  auto_detect_colors : Bool
  deriving DecidableEq, Repr

namespace chromalog

/-- What one call reads from its surroundings: the answer of `isatty` on standard output,
the text `get_timestamp()` produces, the text `get_thread_id()` produces, and whether
opening a path for appending succeeds. -/
structure Env where
  isatty : Bool
  timestamp : List Char
  thread_id : List Char
  can_open : List Char → Bool

/-- The two sinks: the lines written to `std::cout`, and the lines written to files,
each with the path of the file the stream was opened on. -/
structure Sinks where
  cout : List (List Char)
  files : List (List Char × List Char)
  deriving DecidableEq, Repr

/-! ## String primitives -/

/-- Position of the first occurrence of `pat` in `s` (`std::string::find`);
`none` stands for `npos`. -/
def string_find (s pat : List Char) : Option Nat :=
  match s with
  | [] => if pat = [] then some 0 else none
  | c :: rest =>
    if pat.isPrefixOf (c :: rest) then some 0
    else (string_find rest pat).map (· + 1)

/-- Replace the `len` characters of `s` from `pos` on by `text`
(`std::string::replace(pos, len, text)`). -/
def string_replace (s : List Char) (pos len : Nat) (text : List Char) : List Char :=
  s.take pos ++ text ++ s.drop (pos + len)

/-- The placeholder `{}`. -/
def placeholder : List Char := ['{', '}']

/-- The escape character `\033`. -/
def ESC : Char := Char.ofNat 27

def reset_color : List Char := ESC :: "[0m".toList
def black_color : List Char := ESC :: "[30m".toList
def red_color : List Char := ESC :: "[31m".toList
def green_color : List Char := ESC :: "[32m".toList
def yellow_color : List Char := ESC :: "[33m".toList
def blue_color : List Char := ESC :: "[34m".toList
def magenta_color : List Char := ESC :: "[35m".toList
def cyan_color : List Char := ESC :: "[36m".toList
def white_color : List Char := ESC :: "[37m".toList
def bold_style : List Char := ESC :: "[1m".toList

/-! ## The logger -/

def level_to_string (lvl : level) : List Char :=
  match lvl with
  | .trace => "TRACE".toList
  | .debug => "DEBUG".toList
  | .info => "INFO".toList
  | .warning => "WARN".toList
  | .error => "ERROR".toList
  | .critical => "CRIT".toList
  | _ => "UNKNWN".toList

def should_use_colors (env : Env) (lg : chromalog) : Bool :=
  if !lg.enable_colors then false
  else if !lg.auto_detect_colors then true
  else env.isatty

def level_to_color (env : Env) (lg : chromalog) (lvl : level) : List Char :=
  if !should_use_colors env lg then []
  else
    match lvl with
    | .trace => blue_color
    | .debug => cyan_color
    | .info => green_color
    | .warning => yellow_color
    | .error => red_color
    | .critical => bold_style ++ red_color
    | _ => []

/-- The text `final_msg` that `output_log` sends to `std::cout`. -/
def final_msg (env : Env) (lg : chromalog) (lvl : level) (msg : List Char) : List Char :=
  let color := level_to_color env lg lvl
  let reset := if should_use_colors env lg then reset_color else []
  let timestamp := env.timestamp
  let thread_id := env.thread_id
  "[".toList ++ timestamp ++ "] ".toList
    ++ "[".toList ++ thread_id.take 6 ++ "] ".toList
    ++ color ++ "[".toList ++ level_to_string lvl ++ "]".toList ++ reset ++ " ".toList
    ++ "[".toList ++ lg.logger_name ++ "] ".toList
    ++ color ++ msg ++ reset

/-- The text `file_msg` that `output_log` sends to the log file. -/
def file_msg (env : Env) (lg : chromalog) (lvl : level) (msg : List Char) : List Char :=
  let timestamp := env.timestamp
  let thread_id := env.thread_id
  "[".toList ++ timestamp ++ "] ".toList
    ++ "[".toList ++ thread_id.take 6 ++ "] ".toList
    ++ "[".toList ++ level_to_string lvl ++ "] ".toList
    ++ "[".toList ++ lg.logger_name ++ "] ".toList
    ++ msg

def output_log (env : Env) (lg : chromalog) (lvl : level) (msg : List Char)
    (out : Sinks) : chromalog × Sinks :=
  if lvl.toNat < lg.log_level.toNat then (lg, out)
  else
    let out1 : Sinks := { out with cout := out.cout ++ [final_msg env lg lvl msg] }
    match lg.log_file with
    | some path => (lg, { out1 with files := out1.files ++ [(path, file_msg env lg lvl msg)] })
    | none => (lg, out1)

/-- The variadic `format_message`: `args` are the rendered texts of the arguments that are
left; the overload without arguments is the case of the empty list. -/
def format_message (format_str : List Char) : List (List Char) → List Char
  | [] => format_str
  | t :: args =>
    match string_find format_str placeholder with
    | some pos => format_message (string_replace format_str pos 2 t) args
    | none => format_str

/-- The character table of `generate_random_suffix`, with the terminating NUL that
`sizeof` counts. -/
def charset : List Char :=
  "0123456789ABCDEFGHIJKLMNOPQRSTUVWXYZabcdefghijklmnopqrstuvwxyz".toList ++ [Char.ofNat 0]

/-- A draw of `std::uniform_int_distribution<>(lo, hi)` from the raw value the generator
yields: a value of the closed range from `lo` to `hi`. -/
def uniform_int_distribution (lo hi raw : Nat) : Nat := lo + raw % (hi - lo + 1)

/-- The loop of `generate_random_suffix`, `n` rounds from the raw value number `i` on. -/
def random_suffix_loop (gen : Nat → Nat) (i : Nat) (result : List Char) : Nat → List Char
  | 0 => result
  | n + 1 =>
    random_suffix_loop gen (i + 1)
      (result ++ [charset.getD (uniform_int_distribution 0 (charset.length - 2) (gen i))
        (Char.ofNat 0)]) n

/-- The suffix, and the generator after its eight draws.  The generator `gen` is the
sequence of raw values it will yield. -/
def generate_random_suffix (gen : Nat → Nat) : List Char × (Nat → Nat) :=
  (random_suffix_loop gen 0 [] 8, fun n => gen (n + 8))

/-- The constructor `chromalog(name, lvl, colors)`. -/
def new (name : List Char) (lvl : level) (colors : Bool) : chromalog :=
  { logger_name := name, log_level := lvl, enable_colors := colors,
    auto_detect_colors := true, log_file_path := [], log_file := none }

def set_level (lg : chromalog) (lvl : level) : chromalog :=
  { lg with log_level := lvl }

def get_level (lg : chromalog) : level := lg.log_level

def set_colors (lg : chromalog) (colors : Bool) : chromalog :=
  { lg with enable_colors := colors }

def set_auto_detect_colors (lg : chromalog) (auto_detect : Bool) : chromalog :=
  { lg with auto_detect_colors := auto_detect }

def set_log_file (env : Env) (lg : chromalog) (file_path : List Char) : Bool × chromalog :=
  let lg1 : chromalog := if lg.log_file.isSome then { lg with log_file := none } else lg
  let lg2 : chromalog :=
    if env.can_open file_path then { lg1 with log_file := some file_path } else lg1
  if lg2.log_file.isSome then (true, { lg2 with log_file_path := file_path })
  else (false, lg2)

def close_log_file (lg : chromalog) : chromalog :=
  let lg1 : chromalog := if lg.log_file.isSome then { lg with log_file := none } else lg
  { lg1 with log_file_path := [] }

def get_name (lg : chromalog) : List Char := lg.logger_name

def log_trace (env : Env) (lg : chromalog) (format_str : List Char) (args : List (List Char))
    (out : Sinks) : chromalog × Sinks :=
  output_log env lg .trace (format_message format_str args) out

def log_debug (env : Env) (lg : chromalog) (format_str : List Char) (args : List (List Char))
    (out : Sinks) : chromalog × Sinks :=
  output_log env lg .debug (format_message format_str args) out

def log_info (env : Env) (lg : chromalog) (format_str : List Char) (args : List (List Char))
    (out : Sinks) : chromalog × Sinks :=
  output_log env lg .info (format_message format_str args) out

def log_warning (env : Env) (lg : chromalog) (format_str : List Char)
    (args : List (List Char)) (out : Sinks) : chromalog × Sinks :=
  output_log env lg .warning (format_message format_str args) out

def log_error (env : Env) (lg : chromalog) (format_str : List Char) (args : List (List Char))
    (out : Sinks) : chromalog × Sinks :=
  output_log env lg .error (format_message format_str args) out

def log_critical (env : Env) (lg : chromalog) (format_str : List Char)
    (args : List (List Char)) (out : Sinks) : chromalog × Sinks :=
  output_log env lg .critical (format_message format_str args) out

/-- The emission operation of a level: one of the six public `log_` functions.  There is
none for `off`, where nothing happens. -/
def emit (env : Env) (lg : chromalog) (lvl : level) (format_str : List Char)
    (args : List (List Char)) (out : Sinks) : chromalog × Sinks :=
  match lvl with
  | .trace => log_trace env lg format_str args out
  | .debug => log_debug env lg format_str args out
  | .info => log_info env lg format_str args out
  | .warning => log_warning env lg format_str args out
  | .error => log_error env lg format_str args out
  | .critical => log_critical env lg format_str args out
  | .off => (lg, out)

/-! ## The registry -/

/-- The static state: every logger object allocated so far (a `shared_ptr` is `none`
when null and otherwise the index of its object here), the map `loggers` as a list of
entries with distinct keys in no particular order, the slot `default_logger`, and the
generator of `generate_random_suffix`. -/
structure Registry where
  heap : List chromalog
  loggers : List (List Char × Option Nat)
  default_logger : Option Nat
  gen : Nat → Nat

/-- The lookup `loggers.find(name)`: the stored pointer, `none` for `end()`. -/
def map_find (m : List (List Char × Option Nat)) (name : List Char) : Option (Option Nat) :=
  m.lookup name

/-- The removal `loggers.erase(name)`. -/
def map_erase (m : List (List Char × Option Nat)) (name : List Char) :
    List (List Char × Option Nat) :=
  m.filter (fun e => e.1 ≠ name)

/-- The assignment `loggers[name] = p`: afterwards the only entry of `name` holds `p`. -/
def map_assign (m : List (List Char × Option Nat)) (name : List Char) (p : Option Nat) :
    List (List Char × Option Nat) :=
  (name, p) :: map_erase m name

/-- The allocation `std::make_shared<chromalog>(...)`: a new object, and the pointer to it. -/
def make_shared (heap : List chromalog) (obj : chromalog) : Option Nat × List chromalog :=
  (some heap.length, heap ++ [obj])

/-- A member call through a pointer, `p->f()`, for a setter `f`. -/
def heap_update (heap : List chromalog) (p : Nat) (f : chromalog → chromalog) :
    List chromalog :=
  match heap[p]? with
  | some lg => heap.set p (f lg)
  | none => heap

def get_default_logger (r : Registry) : Option Nat × Registry :=
  if r.default_logger.isNone then
    let (p, heap1) := make_shared r.heap (new "default".toList .info true)
    (p, { r with heap := heap1, default_logger := p })
  else (r.default_logger, r)

def get_logger (r : Registry) (name : List Char) : Option Nat × Registry :=
  match map_find r.loggers name with
  | some p => (p, r)
  | none =>
    let (suffix, gen1) := generate_random_suffix r.gen
    let unknown_name := "UNKNOWN_".toList ++ name ++ "_".toList ++ suffix
    let (unknown_logger, heap1) := make_shared r.heap (new unknown_name .info true)
    (unknown_logger, { r with heap := heap1, gen := gen1 })

def create_logger (r : Registry) (name : List Char) (lvl : level) (colors : Bool) :
    Option Nat × Registry :=
  let (logger, heap1) := make_shared r.heap (new name lvl colors)
  (logger, { r with heap := heap1, loggers := map_assign r.loggers name logger })

def register_logger (r : Registry) (logger : Option Nat) : Registry :=
  match logger with
  | none => r
  | some p =>
    match r.heap[p]? with
    | some lg => { r with loggers := map_assign r.loggers (get_name lg) (some p) }
    | none => r

def unregister_logger (r : Registry) (name : List Char) : Registry :=
  { r with loggers := map_erase r.loggers name }

def get_logger_names (r : Registry) : List (List Char) :=
  r.loggers.map (fun pair => pair.1)

/-- One round of the loops of `set_global_level` and `shutdown_all_loggers`: the setter
is called through every pointer of `ptrs` that is not null. -/
def for_each_logger (f : chromalog → chromalog) (ptrs : List (Option Nat))
    (heap : List chromalog) : List chromalog :=
  ptrs.foldl (fun h q => match q with
    | some p => heap_update h p f
    | none => h) heap

def set_global_level (r : Registry) (lvl : level) : Registry :=
  let heap1 := for_each_logger (fun lg => set_level lg lvl) (r.loggers.map (fun pair => pair.2))
    r.heap
  let heap2 := for_each_logger (fun lg => set_level lg lvl) [r.default_logger] heap1
  { r with heap := heap2 }

def shutdown_all_loggers (r : Registry) : Registry :=
  let heap1 := for_each_logger close_log_file (r.loggers.map (fun pair => pair.2)) r.heap
  let heap2 := for_each_logger close_log_file [r.default_logger] heap1
  { r with heap := heap2, loggers := [], default_logger := none }

/-- A pointer that is null or refers to an allocated object. -/
def pointer_valid (heap : List chromalog) : Option Nat → Prop
  | some p => p < heap.length
  | none => True

instance (heap : List chromalog) (q : Option Nat) : Decidable (pointer_valid heap q) := by
  cases q <;> unfold pointer_valid <;> infer_instance

/-- Every pointer the registry stores is null or refers to an allocated object, which
shared ownership guarantees. -/
def pointers_valid (r : Registry) : Prop :=
  (∀ e ∈ r.loggers, pointer_valid r.heap e.2) ∧ pointer_valid r.heap r.default_logger

instance (r : Registry) : Decidable (pointers_valid r) := by
  unfold pointers_valid; infer_instance

/-! ## Reference definitions, after the specification -/

/-- The substitution as the specification words it: one pass from left to right over the
template, in which each placeholder met takes the next argument text while one is left;
once the arguments are used up the rest of the template stays as it is, and arguments
that are left at the end of the template are dropped. -/
def single_pass : List Char → List (List Char) → List Char
  | [], _ => []
  | [c], _ => [c]
  | c :: d :: rest, args =>
    match args with
    | [] => c :: d :: rest
    | a :: more =>
      if c = '{' ∧ d = '}' then a ++ single_pass rest more
      else c :: single_pass (d :: rest) (a :: more)

/-- An argument text that is not empty and holds no brace. -/
def plain_text (a : List Char) : Prop := a ≠ [] ∧ '{' ∉ a ∧ '}' ∉ a

instance (a : List Char) : Decidable (plain_text a) := by
  unfold plain_text; infer_instance

/-- A processed prefix through which the search for the next placeholder passes
unchanged. -/
def settled (done : List Char) : Prop :=
  ∀ rest, string_find (done ++ rest) placeholder
    = (string_find rest placeholder).map (· + done.length)

/-- The number of placeholders of a template, counted from left to right without
overlap. -/
def count_placeholders : List Char → Nat
  | [] => 0
  | [_] => 0
  | c :: d :: rest =>
    if c = '{' ∧ d = '}' then count_placeholders rest + 1
    else count_placeholders (d :: rest)

/-- The tail of a template that starts at its placeholder number `n + 1`, when it has
that many. -/
def placeholder_tail : List Char → Nat → Option (List Char)
  | [], _ => none
  | [_], _ => none
  | c :: d :: rest, n =>
    if c = '{' ∧ d = '}' then
      match n with
      | 0 => some (c :: d :: rest)
      | k + 1 => placeholder_tail rest k
    else placeholder_tail (d :: rest) n

/-- The two characters that start every ANSI colour sequence. -/
def esc_bracket : List Char := [ESC, '[']

/-- The level tag the specification lists for a level. -/
def spec_tag : level → String
  | .trace => "TRACE"
  | .debug => "DEBUG"
  | .info => "INFO"
  | .warning => "WARN"
  | .error => "ERROR"
  | .critical => "CRIT"
  | .off => ""

/-- The colour start the specification lists for a level, when colours are active. -/
def spec_color : level → String
  | .trace => "\x1b[34m"
  | .debug => "\x1b[36m"
  | .info => "\x1b[32m"
  | .warning => "\x1b[33m"
  | .error => "\x1b[31m"
  | .critical => "\x1b[1m\x1b[31m"
  | .off => ""

/-- The line the specification gives for the primary sink, from its fields. -/
def spec_line (active : Bool) (ts tid : List Char) (lvl : level) (n m : List Char) :
    List Char :=
  let C := if active then (spec_color lvl).toList else []
  let R := if active then "\x1b[0m".toList else []
  "[".toList ++ ts ++ "] [".toList ++ tid.take 6 ++ "] ".toList ++ C ++ "[".toList
    ++ (spec_tag lvl).toList ++ "]".toList ++ R ++ " [".toList ++ n ++ "] ".toList
    ++ C ++ m ++ R

/-- A step of the life of one logger: an emission, with what the call reads from its
surroundings, or one of the configuration changes. -/
inductive logger_op where
  | emission (env : Env) (lvl : level) (format_str : List Char) (args : List (List Char))
  | set_level (lvl : level)
  | set_colors (colors : Bool)
  | set_auto_detect_colors (auto_detect : Bool)

/-- Apply one step to a logger and the sinks. -/
def apply_op (st : chromalog × Sinks) : logger_op → chromalog × Sinks
  | .emission env lvl format_str args => emit env st.1 lvl format_str args st.2
  | .set_level lvl => (set_level st.1 lvl, st.2)
  | .set_colors colors => (set_colors st.1 colors, st.2)
  | .set_auto_detect_colors auto_detect => (set_auto_detect_colors st.1 auto_detect, st.2)

/-- Apply the steps in order. -/
def run_ops (st : chromalog × Sinks) (ops : List logger_op) : chromalog × Sinks :=
  ops.foldl apply_op st

/-- An accepted emission: the surroundings of its call, the logger as it was at the call,
the level and the formatted message. -/
structure Emitted where
  env : Env
  lg : chromalog
  lvl : level
  msg : List Char

/-- The accepted emissions of a run, in order. -/
def accepted_emissions (lg : chromalog) : List logger_op → List Emitted
  | [] => []
  | .emission env lvl format_str args :: ops =>
    if lvl ≠ level.off ∧ lg.log_level.toNat ≤ lvl.toNat then
      ⟨env, lg, lvl, format_message format_str args⟩ :: accepted_emissions lg ops
    else accepted_emissions lg ops
  | .set_level lvl :: ops => accepted_emissions (set_level lg lvl) ops
  | .set_colors colors :: ops => accepted_emissions (set_colors lg colors) ops
  | .set_auto_detect_colors auto_detect :: ops =>
    accepted_emissions (set_auto_detect_colors lg auto_detect) ops

/-- The line an accepted emission writes to the primary sink. -/
def primary_line (e : Emitted) : List Char := final_msg e.env e.lg e.lvl e.msg

/-- The line the same emission writes to the primary sink with colours switched off. -/
def uncolored_line (e : Emitted) : List Char :=
  final_msg e.env (set_colors e.lg false) e.lvl e.msg


/-! ## Sample inputs -/

/-- A registry in which `create_logger` has been called for `net` and `db` and the
default logger has been asked for. -/
def demo_registry : Registry :=
  (get_default_logger
    (create_logger
      (create_logger ⟨[], [], none, fun n => 7 * n + 60⟩ "net".toList level.debug true).2
      "db".toList level.info false).2).2

/-- A logger at level info with colours on whose file sink is open on `app.log`. -/
def demo_logger : chromalog :=
  (set_log_file ⟨true, [], [], fun _ => true⟩
    (new "app".toList level.info true) "app.log".toList).2

/-- Four emissions with two configuration changes between them. -/
def demo_ops : List logger_op :=
  [logger_op.emission ⟨true, "09:00:00.001".toList, "1a2b3c4d".toList, fun _ => true⟩
      level.info "start \x7b\x7d".toList ["now".toList],
    logger_op.emission ⟨true, "09:00:00.002".toList, "1a2b3c4d".toList, fun _ => true⟩
      level.debug "detail".toList [],
    logger_op.set_colors false,
    logger_op.set_level level.error,
    logger_op.emission ⟨true, "09:00:00.003".toList, "1a2b3c4d".toList, fun _ => true⟩
      level.warning "careful".toList [],
    logger_op.emission ⟨false, "09:00:00.004".toList, "9".toList, fun _ => true⟩
      level.error "stop".toList []]

/-! ## Sequences of operations on the registry -/

/-- A configuration call on a logger. -/
inductive setter where
  | set_level (lvl : level)
  | set_colors (colors : Bool)
  | set_auto_detect_colors (auto_detect : Bool)
  | set_log_file (env : Env) (file_path : List Char)
  | close_log_file

/-- The logger after a configuration call. -/
def apply_setter : setter → chromalog → chromalog
  | .set_level lvl, lg => set_level lg lvl
  | .set_colors colors, lg => set_colors lg colors
  | .set_auto_detect_colors auto_detect, lg => set_auto_detect_colors lg auto_detect
  | .set_log_file env file_path, lg => (set_log_file env lg file_path).2
  | .close_log_file, lg => close_log_file lg

/-- A step of a program that uses the registry: one of the static functions of the class,
or one of two things a caller does with loggers of its own: `construct` is
`std::make_shared<chromalog>(name, lvl, colors)` outside the registry, and `configure` is
a configuration call through a pointer the caller holds. -/
inductive registry_op where
  | get_default_logger
  | get_logger (name : List Char)
  | create_logger (name : List Char) (lvl : level) (colors : Bool)
  | register_logger (logger : Option Nat)
  | unregister_logger (name : List Char)
  | get_logger_names
  | set_global_level (lvl : level)
  | shutdown_all_loggers
  | construct (name : List Char) (lvl : level) (colors : Bool)
  | configure (p : Nat) (s : setter)

/-- The static state after one step. -/
def registry_step (r : Registry) : registry_op → Registry
  | .get_default_logger => (get_default_logger r).2
  | .get_logger name => (get_logger r name).2
  | .create_logger name lvl colors => (create_logger r name lvl colors).2
  | .register_logger logger => register_logger r logger
  | .unregister_logger name => unregister_logger r name
  | .get_logger_names => r
  | .set_global_level lvl => set_global_level r lvl
  | .shutdown_all_loggers => shutdown_all_loggers r
  | .construct name lvl colors => { r with heap := (make_shared r.heap (new name lvl colors)).2 }
  | .configure p s => { r with heap := heap_update r.heap p (apply_setter s) }

/-- The static state after the steps, in order. -/
def run_registry (r : Registry) (ops : List registry_op) : Registry :=
  ops.foldl registry_step r

/-- The static state at program start: no logger, an empty map, an empty default slot. -/
def empty_registry (gen : Nat → Nat) : Registry := ⟨[], [], none, gen⟩

/-- What a step means for the entry of a name, in the words of the specification:
an instance is inserted under a name, the entry of a name is removed, everything is
removed, or nothing of this kind. -/
inductive history_event where
  | inserted (name : List Char) (p : Nat)
  | unregistered (name : List Char)
  | shutdown
  | other
  deriving DecidableEq, Repr

/-- The event of a step taken in state `r`: `create_logger(name, ...)` inserts the
instance it returns under `name`; `register_logger` of a logger that is not null inserts
it under its `get_name()`. -/
def observe (r : Registry) : registry_op → history_event
  | .create_logger name lvl colors =>
    match (create_logger r name lvl colors).1 with
    | some p => .inserted name p
    | none => .other
  | .register_logger (some p) =>
    match r.heap[p]? with
    | some lg => .inserted (get_name lg) p
    | none => .other
  | .unregister_logger name => .unregistered name
  | .shutdown_all_loggers => .shutdown
  | _ => .other

/-- The events of a run from state `r`, oldest first. -/
def history (r : Registry) : List registry_op → List history_event
  | [] => []
  | op :: ops => observe r op :: history (registry_step r op) ops

/-- The reference map after one more event, for one name: the instance inserted under
the name if the event inserts one, nothing if the event removes the name or everything,
and what it was before otherwise. -/
def reference_step (name : List Char) (entry : Option Nat) : history_event → Option Nat
  | .inserted n p => if n = name then some p else entry
  | .unregistered n => if n = name then none else entry
  | .shutdown => none
  | .other => entry

/-- The instance most recently inserted under `name` and not removed since, if any. -/
def last_inserted (name : List Char) (events : List history_event) : Option Nat :=
  events.foldl (reference_step name) none

/-- Every entry of the map holds a pointer that is not null, to a logger whose
`get_name()` is the key of the entry. -/
def keys_named (r : Registry) : Prop :=
  ∀ e ∈ r.loggers, ∃ p lg, e.2 = some p ∧ r.heap[p]? = some lg ∧ get_name lg = e.1

/-- Every logger of the first heap is still there in the second, under its name. -/
def names_kept (heap heap1 : List chromalog) : Prop :=
  ∀ (p : Nat) (lg : chromalog), heap[p]? = some lg →
    ∃ lg1, heap1[p]? = some lg1 ∧ lg1.logger_name = lg.logger_name

/-- What holds of the static state at every point of a program. -/
def registry_inv (r : Registry) : Prop :=
  pointers_valid r ∧ keys_named r ∧ (get_logger_names r).Nodup

/-! ## Traces of work and of locks -/

/-- The two kinds of mutex: the static `registry_mutex`, and the `log_mutex` of the
logger object at index `p`. -/
inductive Lock where
  | registry_mutex
  | log_mutex (p : Nat)
  deriving DecidableEq, Repr

/-- The pieces of work an operation can do, as far as the claims speak of them. -/
inductive Event where
  | acquire (l : Lock)
  | release (l : Lock)
  | to_string_safe (text : List Char)
  | replace (pos : Nat)
  | get_timestamp
  | get_thread_id
  | cout (line : List Char)
  | log_file (path line : List Char)
  deriving DecidableEq, Repr

/-- A scope that starts with `std::lock_guard<std::mutex> lock(l)`: the mutex is taken,
the rest of the scope runs, the mutex is given back. -/
def lock_guard (l : Lock) (body : List Event) : List Event :=
  Event.acquire l :: body ++ [Event.release l]

/-- The work of `format_message`: for each argument, as long as the search finds a
placeholder, the argument is rendered and the placeholder replaced. -/
def format_message_trace (format_str : List Char) : List (List Char) → List Event
  | [] => []
  | t :: args =>
    match string_find format_str placeholder with
    | some pos =>
      Event.to_string_safe t :: Event.replace pos ::
        format_message_trace (string_replace format_str pos 2 t) args
    | none => []

/-- The work of `output_log` on the logger object at index `p`. -/
def output_log_trace (env : Env) (lg : chromalog) (p : Nat) (lvl : level)
    (msg : List Char) : List Event :=
  if lvl.toNat < lg.log_level.toNat then []
  else
    lock_guard (Lock.log_mutex p)
      ([Event.get_timestamp, Event.get_thread_id, Event.cout (final_msg env lg lvl msg)] ++
        match lg.log_file with
        | some path => [Event.log_file path (file_msg env lg lvl msg)]
        | none => [])

/-- The work of the emission operation of a level: each of the six `log_` functions
evaluates `format_message(format_str, args...)`, the argument of its call, and then
calls `output_log` with the result. -/
def emit_trace (env : Env) (lg : chromalog) (p : Nat) (lvl : level)
    (format_str : List Char) (args : List (List Char)) : List Event :=
  match lvl with
  | .off => []
  | _ =>
    format_message_trace format_str args
      ++ output_log_trace env lg p lvl (format_message format_str args)

/-- The lines a trace writes to `std::cout`. -/
def cout_lines : List Event → List (List Char)
  | [] => []
  | Event.cout line :: rest => line :: cout_lines rest
  | _ :: rest => cout_lines rest

/-- The lines a trace writes to log files. -/
def file_lines : List Event → List (List Char × List Char)
  | [] => []
  | Event.log_file path line :: rest => (path, line) :: file_lines rest
  | _ :: rest => file_lines rest

/-- Whether an event takes or gives back a mutex. -/
def is_lock_event : Event → Bool
  | .acquire _ => true
  | .release _ => true
  | _ => false

/-- Whether an event is part of formatting: rendering an argument or replacing a
placeholder. -/
def is_format_event : Event → Bool
  | .to_string_safe _ => true
  | .replace _ => true
  | _ => false

/-- The object that is destroyed when the pointer `q` is dropped: the one it refers to,
if `q` is the last reference to it.  Who else holds a reference is not part of the
state, so `last_ref` tells it. -/
def dropped (last_ref : Nat → Bool) (q : Option Nat) : Option Nat :=
  match q with
  | some p => if last_ref p then some p else none
  | none => none

/-- The pointer an entry of the map holds, null when there is no entry. -/
def stored_pointer (r : Registry) (name : List Char) : Option Nat :=
  match map_find r.loggers name with
  | some q => q
  | none => none

/-- A sequence of calls, one through every pointer of the list that is not null, of a
member function that holds the `log_mutex` of its object for its duration, as
`set_level`, `close_log_file`, `get_name` and the destructor do. -/
def visit_all : List (Option Nat) → List Event
  | [] => []
  | some p :: rest => lock_guard (Lock.log_mutex p) [] ++ visit_all rest
  | none :: rest => visit_all rest

/-- The mutex events of a step of a program on the registry, in state `r`.  An
assignment to an entry of the map, `erase`, `clear` and `reset` drop a pointer, and the
destructor of a logger runs where its last reference is dropped. -/
def registry_lock_events (last_ref : Nat → Bool) (r : Registry) : registry_op → List Event
  | .get_default_logger => lock_guard Lock.registry_mutex []
  | .get_logger _ => lock_guard Lock.registry_mutex []
  | .create_logger name _ _ =>
    lock_guard Lock.registry_mutex (visit_all [dropped last_ref (stored_pointer r name)])
  | .register_logger none => []
  | .register_logger (some p) =>
    lock_guard Lock.registry_mutex
      (visit_all [some p,
        dropped last_ref
          (match r.heap[p]? with
           | some lg => stored_pointer r (get_name lg)
           | none => none)])
  | .unregister_logger name =>
    lock_guard Lock.registry_mutex (visit_all [dropped last_ref (stored_pointer r name)])
  | .get_logger_names => lock_guard Lock.registry_mutex []
  | .set_global_level _ =>
    lock_guard Lock.registry_mutex
      (visit_all (r.loggers.map (fun pair => pair.2) ++ [r.default_logger]))
  | .shutdown_all_loggers =>
    lock_guard Lock.registry_mutex
      (visit_all (r.loggers.map (fun pair => pair.2) ++ [r.default_logger]
        ++ r.loggers.map (fun pair => dropped last_ref pair.2)
        ++ [dropped last_ref r.default_logger]))
  | .construct _ _ _ => []
  | .configure p _ => lock_guard (Lock.log_mutex p) []

/-- A call of a public operation: a step on the registry, or one of the other public
members of a logger: the destructor, the move constructor and the move assignment (of
the object at `src` into the object at `dst`), the two getters, and the six emission
operations. -/
inductive public_op where
  | registry (op : registry_op)
  | destroy (p : Nat)
  | move_construct (dst src : Nat)
  | move_assign (dst src : Nat)
  | get_level (p : Nat)
  | get_name (p : Nat)
  | log (env : Env) (p : Nat) (lvl : level) (format_str : List Char)
      (args : List (List Char))

/-- The mutex events of a call of a public operation, in state `r`. -/
def lock_events (last_ref : Nat → Bool) (r : Registry) : public_op → List Event
  | .registry op => registry_lock_events last_ref r op
  | .destroy p => lock_guard (Lock.log_mutex p) []
  | .move_construct dst src =>
    lock_guard (Lock.log_mutex dst) (lock_guard (Lock.log_mutex src) [])
  | .move_assign dst src =>
    if dst ≠ src then lock_guard (Lock.log_mutex dst) (lock_guard (Lock.log_mutex src) [])
    else []
  | .get_level p => lock_guard (Lock.log_mutex p) []
  | .get_name p => lock_guard (Lock.log_mutex p) []
  | .log env p lvl format_str args =>
    match r.heap[p]? with
    | some lg => (emit_trace env lg p lvl format_str args).filter is_lock_event
    | none => []

/-- The mutexes held after an event, given those held before it. -/
def held_after (held : List Lock) : Event → List Lock
  | .acquire l => l :: held
  | .release l => held.erase l
  | _ => held

/-- Whether a condition on the set of held mutexes is met at some point of a trace that
starts with the mutexes `held`. -/
def at_some_point (cond : List Lock → Bool) : List Lock → List Event → Bool
  | held, [] => cond held
  | held, ev :: rest => cond held || at_some_point cond (held_after held ev) rest

/-- Whether a mutex is the `log_mutex` of a logger. -/
def is_log_mutex : Lock → Bool
  | .log_mutex _ => true
  | .registry_mutex => false

/-- The registry mutex and the mutex of a logger are both held. -/
def registry_and_logger (held : List Lock) : Bool :=
  held.contains Lock.registry_mutex && held.any is_log_mutex

/-- The mutexes of two different loggers are both held. -/
def two_loggers (held : List Lock) : Bool :=
  held.any (fun a => held.any (fun b => is_log_mutex a && is_log_mutex b && a != b))

/-- Whether the registry mutex is taken at a point of the trace where the mutex of a
logger is held. -/
def registry_after_logger : List Lock → List Event → Bool
  | _, [] => false
  | held, ev :: rest =>
    (ev == Event.acquire Lock.registry_mutex && held.any is_log_mutex)
      || registry_after_logger (held_after held ev) rest

/-- A registry with two registered loggers, of which `db` writes to `db.log`, a default
logger that writes to `default.log`, and a logger that is no longer registered. -/
def demo_registry_files : Registry :=
  { heap := [new "net".toList level.debug true,
             { new "db".toList level.info false with
               log_file := some "db.log".toList, log_file_path := "db.log".toList },
             { new "default".toList level.info true with
               log_file := some "default.log".toList,
               log_file_path := "default.log".toList },
             { new "old".toList level.trace true with
               log_file := some "old.log".toList, log_file_path := "old.log".toList }],
    loggers := [("db".toList, some 1), ("net".toList, some 0)],
    default_logger := some 2,
    gen := fun n => 11 * n + 5 }

/-! ## Moves -/

/-- A logger after it has been moved from: `std::move` leaves its two strings empty and
its stream without a file; the level and the two flags are copied, not moved. -/
def moved_from (other : chromalog) : chromalog :=
  { other with logger_name := [], log_file_path := [], log_file := none }

/-- The move constructor `chromalog(chromalog&& other)`: the new object, which takes
over all six members of `other`, and `other` after the call. -/
def move_construct (other : chromalog) : chromalog × chromalog :=
  ({ logger_name := other.logger_name, log_level := other.log_level,
     enable_colors := other.enable_colors, auto_detect_colors := other.auto_detect_colors,
     log_file_path := other.log_file_path, log_file := other.log_file },
   moved_from other)

/-- The move assignment `operator=(chromalog&& other)` between two different objects:
the object assigned to, all of whose members are overwritten by those of `other`, and
`other` after the call. -/
def move_assign (_obj other : chromalog) : chromalog × chromalog :=
  ({ logger_name := other.logger_name, log_level := other.log_level,
     enable_colors := other.enable_colors, auto_detect_colors := other.auto_detect_colors,
     log_file_path := other.log_file_path, log_file := other.log_file },
   moved_from other)

/-- A step of a program: a step on the registry, the construction of a new logger by
move from the logger at `src`, or the move assignment of the logger at `src` to the
logger at `dst`. -/
inductive program_op where
  | registry (op : registry_op)
  | move_construct (src : Nat)
  | move_assign (dst src : Nat)

/-- The static state after one step of a program.  The move assignment does nothing when
both sides are the same object (`this != &other`). -/
def program_step (r : Registry) : program_op → Registry
  | .registry op => registry_step r op
  | .move_construct src =>
    match r.heap[src]? with
    | some other =>
      let heap1 := r.heap.set src (move_construct other).2
      { r with heap := heap1 ++ [(move_construct other).1] }
    | none => r
  | .move_assign dst src =>
    if dst = src then r
    else
      match r.heap[dst]?, r.heap[src]? with
      | some obj, some other =>
        let heap1 := r.heap.set src (move_assign obj other).2
        { r with heap := heap1.set dst (move_assign obj other).1 }
      | _, _ => r

/-- The static state after the steps of a program, in order. -/
def run_program (r : Registry) (ops : List program_op) : Registry :=
  ops.foldl program_step r

/-- Whether an entry of the map holds the pointer to the logger at `p`. -/
def registered (r : Registry) (p : Nat) : Bool :=
  r.loggers.any (fun pair => pair.2 == some p)

/-- Whether a step leaves alone the loggers that the map holds: it is no move, or a move
that neither moves from such a logger nor assigns to one. -/
def move_spares (r : Registry) : program_op → Bool
  | .registry _ => true
  | .move_construct src => !registered r src
  | .move_assign dst src => dst == src || (!registered r dst && !registered r src)

/-- Whether every move of a run from state `r` leaves alone the loggers that the map
holds at the time of the move. -/
def moves_spare_registered : Registry → List program_op → Bool
  | _, [] => true
  | r, op :: ops => move_spares r op && moves_spare_registered (program_step r op) ops

/-- Every entry of the map holds a pointer that is not null and refers to an allocated
logger. -/
def keys_allocated (r : Registry) : Prop :=
  ∀ e ∈ r.loggers, ∃ p, e.2 = some p ∧ p < r.heap.length

/-- A program that creates `x`, constructs a logger `tmp` of its own, constructs another
by move from it and registers that one, and then assigns a third logger of its own by
move to the one moved from. -/
def demo_program : List program_op :=
  [program_op.registry (registry_op.create_logger "x".toList level.info true),
   program_op.registry (registry_op.construct "tmp".toList level.debug true),
   program_op.move_construct 1,
   program_op.registry (registry_op.register_logger (some 2)),
   program_op.registry (registry_op.construct "y".toList level.info false),
   program_op.move_assign 1 3]

/-- A program that creates `x` and constructs a logger by move from the one returned. -/
def demo_program_moved : List program_op :=
  [program_op.registry (registry_op.create_logger "x".toList level.info true),
   program_op.move_construct 0]

/-! ## Placeholder substitution -/

theorem string_find_nil : string_find [] placeholder = none := by
  simp [string_find, placeholder]

theorem string_find_cons (c : Char) (rest : List Char) :
    string_find (c :: rest) placeholder =
      if c = '{' ∧ rest.head? = some '}' then some 0
      else (string_find rest placeholder).map (· + 1) := by
  rw [string_find]
  have hp : placeholder.isPrefixOf (c :: rest) = true ↔
      (c = '{' ∧ rest.head? = some '}') := by
    cases rest with
    | nil => simp [placeholder, List.isPrefixOf]
    | cons d r =>
      simp [placeholder, List.isPrefixOf]
      constructor
      · rintro ⟨h1, h2⟩; exact ⟨h1.symm, h2.symm⟩
      · rintro ⟨h1, h2⟩; exact ⟨h1.symm, h2.symm⟩
  by_cases h : c = '{' ∧ rest.head? = some '}'
  · rw [if_pos (hp.2 h), if_pos h]
  · rw [if_neg (fun hh => h (hp.1 hh)), if_neg h]

/-- A found placeholder lies within the string, which splits around it. -/
theorem string_find_split (s : List Char) (q : Nat)
    (hq : string_find s placeholder = some q) :
    s = s.take q ++ placeholder ++ s.drop (q + 2) ∧ q + 2 ≤ s.length := by
  induction s generalizing q with
  | nil => simp [string_find_nil] at hq
  | cons c r ih =>
    rw [string_find_cons] at hq
    by_cases h : c = '{' ∧ r.head? = some '}'
    · rw [if_pos h] at hq
      have : q = 0 := by simpa using hq.symm
      subst this
      cases r with
      | nil => simp at h
      | cons d r1 =>
        simp at h
        simp [placeholder, h.1, h.2]
    · rw [if_neg h] at hq
      cases hr : string_find r placeholder with
      | none => simp [hr] at hq
      | some q1 =>
        have : q = q1 + 1 := by simpa [hr] using hq.symm
        subst this
        obtain ⟨h1, h2⟩ := ih q1 hr
        refine ⟨?_, by simp; omega⟩
        simp only [List.take_succ_cons, List.cons_append, List.drop_succ_cons]
        exact congrArg (c :: ·) h1

/-- The search finds an occurrence, and one that starts no later than any given one. -/
theorem string_find_le (front back : List Char) :
    ∃ pos, string_find (front ++ placeholder ++ back) placeholder = some pos ∧
      pos ≤ front.length := by
  induction front with
  | nil =>
    refine ⟨0, ?_, by simp⟩
    show string_find ('{' :: '}' :: back) placeholder = some 0
    rw [string_find_cons]
    simp
  | cons c front ih =>
    obtain ⟨pos, h1, h2⟩ := ih
    simp only [List.cons_append]
    rw [string_find_cons]
    by_cases h : c = '{' ∧ (front ++ placeholder ++ back).head? = some '}'
    · exact ⟨0, by rw [if_pos h], by simp⟩
    · refine ⟨pos + 1, ?_, by simp; omega⟩
      rw [if_neg h]
      simp only [List.append_assoc] at h1
      simp [h1]

theorem single_pass_nil_args (s : List Char) : single_pass s [] = s := by
  match s with
  | [] => simp [single_pass]
  | [c] => simp [single_pass]
  | c :: d :: rest => simp [single_pass]

theorem single_pass_cons (c : Char) (rest : List Char) (a : List Char)
    (more : List (List Char)) :
    single_pass (c :: rest) (a :: more) =
      if c = '{' ∧ rest.head? = some '}' then a ++ single_pass (rest.drop 1) more
      else c :: single_pass rest (a :: more) := by
  cases rest with
  | nil => simp [single_pass]
  | cons d r => simp [single_pass]

/-- The single pass, told with the search of the code: the text before the first
placeholder, the argument, and the pass over what follows the placeholder. -/
theorem single_pass_find (s a : List Char) (more : List (List Char)) :
    single_pass s (a :: more) =
      match string_find s placeholder with
      | some p => s.take p ++ a ++ single_pass (s.drop (p + 2)) more
      | none => s := by
  induction s with
  | nil => simp [string_find_nil, single_pass]
  | cons c rest ih =>
    rw [single_pass_cons, string_find_cons]
    by_cases h : c = '{' ∧ rest.head? = some '}'
    · simp only [h, and_self, if_true]
      simp
    · simp only [h, if_false]
      rw [ih]
      cases hf : string_find rest placeholder with
      | none => simp
      | some p => simp

/-- Searching across a text without an opening brace only shifts the position. -/
theorem string_find_append_no_open (b rest : List Char) (hb : '{' ∉ b) :
    string_find (b ++ rest) placeholder
      = (string_find rest placeholder).map (· + b.length) := by
  induction b with
  | nil => simp
  | cons c b ih =>
    have hc : c ≠ '{' := fun h => hb (by simp [h])
    have hb2 : '{' ∉ b := fun h => hb (by simp [h])
    rw [List.cons_append, string_find_cons, if_neg (fun h => hc h.1), ih hb2]
    cases string_find rest placeholder with
    | none => simp
    | some q => simp; omega

/-- After the text before the first placeholder and a plain argument text, the search
goes on in the remainder only. -/
theorem string_find_take_append (s b rest : List Char) (q : Nat)
    (hq : string_find s placeholder = some q) (hb : plain_text b) :
    string_find (s.take q ++ b ++ rest) placeholder
      = (string_find rest placeholder).map (· + (q + b.length)) := by
  induction s generalizing q with
  | nil => simp [string_find_nil] at hq
  | cons c r ih =>
    rw [string_find_cons] at hq
    by_cases h : c = '{' ∧ r.head? = some '}'
    · rw [if_pos h] at hq
      have : q = 0 := by simpa using hq.symm
      subst this
      simp only [List.take_zero, List.nil_append, Nat.zero_add]
      exact string_find_append_no_open b rest hb.2.1
    · rw [if_neg h] at hq
      cases hr : string_find r placeholder with
      | none => simp [hr] at hq
      | some q1 =>
        have : q = q1 + 1 := by simpa [hr] using hq.symm
        subst this
        have ih1 := ih q1 hr
        simp only [List.take_succ_cons, List.cons_append]
        rw [string_find_cons, if_neg, List.append_assoc]
        · rw [List.append_assoc] at ih1
          rw [ih1]
          cases string_find rest placeholder with
          | none => simp
          | some q => simp; omega
        · rintro ⟨hc, hh⟩
          apply h
          refine ⟨hc, ?_⟩
          cases r with
          | nil => simp [string_find_nil] at hr
          | cons d r1 =>
            cases q1 with
            | zero =>
              obtain ⟨hne, -, hcl⟩ := hb
              cases b with
              | nil => exact absurd rfl hne
              | cons e b1 =>
                simp at hh
                exact absurd (by simp [hh]) hcl
            | succ q2 => simpa using hh

theorem settled_nil : settled [] := by
  intro rest
  cases h : string_find rest placeholder <;> simp [h]

theorem settled_step (done s b : List Char) (q : Nat) (hd : settled done)
    (hq : string_find s placeholder = some q) (hb : plain_text b) :
    settled (done ++ s.take q ++ b) := by
  intro rest
  have hlen : (s.take q).length = q := by
    have := (string_find_split s q hq).2
    simp; omega
  rw [List.append_assoc, List.append_assoc, hd, ← List.append_assoc,
    string_find_take_append s b rest q hq hb]
  cases string_find rest placeholder with
  | none => simp
  | some k => simp [hlen]; omega

theorem format_message_settled (args : List (List Char))
    (hargs : ∀ a ∈ args, plain_text a) :
    ∀ done rest : List Char, settled done →
      format_message (done ++ rest) args = done ++ single_pass rest args := by
  induction args with
  | nil => intro done rest _; simp [format_message, single_pass_nil_args]
  | cons b more ih =>
    intro done rest hd
    have hb : plain_text b := hargs b (by simp)
    have hmore : ∀ a ∈ more, plain_text a := fun a ha => hargs a (by simp [ha])
    rw [format_message, hd rest, single_pass_find]
    cases hq : string_find rest placeholder with
    | none => simp
    | some q =>
      have hlen : q + 2 ≤ rest.length := (string_find_split rest q hq).2
      have hrep : string_replace (done ++ rest) (q + done.length) 2 b
          = (done ++ rest.take q ++ b) ++ rest.drop (q + 2) := by
        unfold string_replace
        rw [show q + done.length = done.length + q by omega, List.take_append,
          show done.length + q + 2 = done.length + (q + 2) by omega, List.drop_append]
      simp only [Option.map_some']
      rw [hrep, ih hmore _ _ (settled_step done rest b q hd hq hb)]
      simp only [List.append_assoc]

/-- C1, as amended: when every argument text is non-empty and holds no brace,
`format_message` returns the template in which, from left to right, the i-th placeholder
is replaced by the i-th argument text, later placeholders stay literal and surplus
arguments are dropped. -/
theorem format_message_plain_args (format_str : List Char) (args : List (List Char))
    (hargs : ∀ a ∈ args, plain_text a) :
    format_message format_str args = single_pass format_str args := by
  simpa using format_message_settled args hargs [] format_str settled_nil

/-- The three examples of the specification, obtained from the theorem. -/
theorem format_message_plain_args_witness :
    format_message "\x7b\x7d and \x7b\x7d".toList ["a".toList] = "a and \x7b\x7d".toList ∧
    format_message "\x7b\x7d".toList ["a".toList, "b".toList] = "a".toList ∧
    format_message "no placeholders".toList ["x".toList] = "no placeholders".toList :=
  ⟨(format_message_plain_args "\x7b\x7d and \x7b\x7d".toList ["a".toList]
      (by decide)).trans (by decide),
   (format_message_plain_args "\x7b\x7d".toList ["a".toList, "b".toList]
      (by decide)).trans (by decide),
   (format_message_plain_args "no placeholders".toList ["x".toList]
      (by decide)).trans (by decide)⟩

/-- C1 as stated fails: an argument text that is itself a placeholder is overwritten by
the next argument, where one pass over the template gives the second placeholder to the
second argument. -/
theorem format_message_rescans :
    format_message "\x7b\x7d\x7b\x7d".toList ["\x7b\x7d".toList, "x".toList]
        = "x\x7b\x7d".toList ∧
    single_pass "\x7b\x7d\x7b\x7d".toList ["\x7b\x7d".toList, "x".toList]
        = "\x7b\x7dx".toList ∧
    format_message "\x7b\x7d\x7b\x7d".toList ["\x7b\x7d".toList, "x".toList]
        ≠ single_pass "\x7b\x7d\x7b\x7d".toList ["\x7b\x7d".toList, "x".toList] := by
  decide

/-! ## Emission -/

/-- The emission operation of one of the six levels is `output_log` at that level on the
formatted message. -/
theorem emit_eq_output_log (env : Env) (lg : chromalog) (lvl : level)
    (format_str : List Char) (args : List (List Char)) (out : Sinks)
    (hl : lvl ≠ level.off) :
    emit env lg lvl format_str args out
      = output_log env lg lvl (format_message format_str args) out := by
  cases lvl <;> first | rfl | exact absurd rfl hl

theorem output_log_below (env : Env) (lg : chromalog) (lvl : level) (msg : List Char)
    (out : Sinks) (h : lvl.toNat < lg.log_level.toNat) :
    output_log env lg lvl msg out = (lg, out) := by
  simp [output_log, h]

theorem output_log_accepted (env : Env) (lg : chromalog) (lvl : level) (msg : List Char)
    (out : Sinks) (h : lg.log_level.toNat ≤ lvl.toNat) :
    (output_log env lg lvl msg out).1 = lg ∧
    (output_log env lg lvl msg out).2.cout = out.cout ++ [final_msg env lg lvl msg] ∧
    (output_log env lg lvl msg out).2.files = out.files ++
      (match lg.log_file with
       | some path => [(path, file_msg env lg lvl msg)]
       | none => []) := by
  have h1 : ¬ lvl.toNat < lg.log_level.toNat := by omega
  unfold output_log
  rw [if_neg h1]
  cases lg.log_file <;> simp

/-- C2: an emission at one of the six levels `L` on a logger of minimum level `M` appends
exactly one line to the primary sink when `L >= M` in the numeric order of the levels,
and leaves both sinks as they were when `L < M`; with `M = off` nothing is written. -/
theorem emission_level_filter (env : Env) (lg : chromalog) (L : level)
    (format_str : List Char) (args : List (List Char)) (out : Sinks)
    (hL : L ≠ level.off) :
    (lg.log_level.toNat ≤ L.toNat →
      (emit env lg L format_str args out).2.cout
        = out.cout ++ [final_msg env lg L (format_message format_str args)]) ∧
    (L.toNat < lg.log_level.toNat → (emit env lg L format_str args out).2 = out) ∧
    (lg.log_level = level.off → (emit env lg L format_str args out).2 = out) := by
  rw [emit_eq_output_log env lg L format_str args out hL]
  refine ⟨fun h => (output_log_accepted env lg L _ out h).2.1, fun h => ?_, fun h => ?_⟩
  · rw [output_log_below env lg L _ out h]
  · rw [output_log_below env lg L _ out]
    rw [h]
    cases L <;> first | exact absurd rfl hL | simp [level.toNat]

/-- A warning on a logger of minimum level info is written; a debug message is not. -/
theorem emission_level_filter_witness :
    (emit ⟨false, "t".toList, "1".toList, fun _ => false⟩
        (new "n".toList level.info true) level.warning "m".toList [] ⟨[], []⟩).2.cout
      = [] ++ [final_msg ⟨false, "t".toList, "1".toList, fun _ => false⟩
        (new "n".toList level.info true) level.warning (format_message "m".toList [])] ∧
    (emit ⟨false, "t".toList, "1".toList, fun _ => false⟩
        (new "n".toList level.info true) level.debug "m".toList [] ⟨[], []⟩).2 = ⟨[], []⟩ :=
  ⟨(emission_level_filter ⟨false, "t".toList, "1".toList, fun _ => false⟩
      (new "n".toList level.info true) level.warning "m".toList [] ⟨[], []⟩
      (by decide)).1 (by decide),
   (emission_level_filter ⟨false, "t".toList, "1".toList, fun _ => false⟩
      (new "n".toList level.info true) level.debug "m".toList [] ⟨[], []⟩
      (by decide)).2.1 (by decide)⟩

/-- C7: colours are in use exactly when `enable_colors` is set and either
`auto_detect_colors` is not set or standard output is a terminal. -/
theorem should_use_colors_iff (env : Env) (lg : chromalog) :
    should_use_colors env lg = true ↔
      (lg.enable_colors = true ∧ (lg.auto_detect_colors = false ∨ env.isatty = true)) := by
  unfold should_use_colors
  cases lg.enable_colors <;> cases lg.auto_detect_colors <;> cases env.isatty <;> simp

/-- The line of the code is the line of the specification, for the six levels. -/
theorem final_msg_eq_spec_line (env : Env) (lg : chromalog) (lvl : level) (msg : List Char)
    (hl : lvl ≠ level.off) :
    final_msg env lg lvl msg
      = spec_line (should_use_colors env lg) env.timestamp env.thread_id lvl
          lg.logger_name msg := by
  have e1 : reset_color = "\x1b[0m".toList := by decide
  have e2 : blue_color =  "\x1b[34m".toList := by decide
  have e3 : cyan_color =  "\x1b[36m".toList := by decide
  have e4 : green_color =  "\x1b[32m".toList := by decide
  have e5 : yellow_color =  "\x1b[33m".toList := by decide
  have e6 : red_color =  "\x1b[31m".toList := by decide
  have e7 : "\x1b[1m\x1b[31m".toList = bold_style ++ "\x1b[31m".toList := by decide
  have e8 : "] [".toList = "] ".toList ++ "[".toList := by decide
  have e9 : " [".toList = " ".toList ++ "[".toList := by decide
  unfold final_msg spec_line level_to_color
  rw [e8, e9]
  cases hc : should_use_colors env lg <;> cases lvl <;>
    first
    | exact absurd rfl hl
    | simp only [level_to_string, spec_tag, spec_color, e1, e2, e3, e4, e5, e6, e7,
        Bool.not_false, Bool.not_true, if_true, if_false, Bool.false_eq_true,
        List.append_assoc, List.nil_append, List.append_nil]

/-- C8: the line an accepted emission at one of the six levels writes to the primary sink
is `[ts] [t6] C[TAG]R [n] CmR` with the tag and the colour sequences of the level, the
colour sequences being empty when colours are not in use. -/
theorem primary_line_format (env : Env) (lg : chromalog) (lvl : level)
    (format_str : List Char) (args : List (List Char)) (out : Sinks)
    (hl : lvl ≠ level.off) (hacc : lg.log_level.toNat ≤ lvl.toNat) :
    (emit env lg lvl format_str args out).2.cout
      = out.cout ++ [spec_line (should_use_colors env lg) env.timestamp env.thread_id lvl
          lg.logger_name (format_message format_str args)] := by
  rw [emit_eq_output_log env lg lvl format_str args out hl,
    (output_log_accepted env lg lvl _ out hacc).2.1,
    final_msg_eq_spec_line env lg lvl _ hl]

/-- A critical message on a colour terminal, and an info message with colours off. -/
theorem primary_line_format_witness :
    (emit ⟨true, "2024-01-02 03:04:05.678".toList, "140213".toList, fun _ => false⟩
        (new "net".toList level.info true) level.critical "down \x7b\x7d".toList
        ["eth0".toList] ⟨[], []⟩).2.cout
      = ["[2024-01-02 03:04:05.678] [140213] \x1b[1m\x1b[31m[CRIT]\x1b[0m [net] \x1b[1m\x1b[31mdown eth0\x1b[0m".toList] ∧
    (emit ⟨true, "2024-01-02 03:04:05.678".toList, "14021399".toList, fun _ => false⟩
        (new "net".toList level.info false) level.info "up".toList [] ⟨[], []⟩).2.cout
      = ["[2024-01-02 03:04:05.678] [140213] [INFO] [net] up".toList] :=
  ⟨(primary_line_format
      ⟨true, "2024-01-02 03:04:05.678".toList, "140213".toList, fun _ => false⟩
      (new "net".toList level.info true) level.critical "down \x7b\x7d".toList
      ["eth0".toList] ⟨[], []⟩ (by decide) (by decide)).trans (by decide),
   (primary_line_format
      ⟨true, "2024-01-02 03:04:05.678".toList, "14021399".toList, fun _ => false⟩
      (new "net".toList level.info false) level.info "up".toList [] ⟨[], []⟩
      (by decide) (by decide)).trans (by decide)⟩

/-! ## Colour sequences -/

theorem esc_bracket_prefix_cons (c : Char) (ys : List Char) :
    esc_bracket <+: c :: ys ↔ c = ESC ∧ ys.head? = some '[' := by
  cases ys with
  | nil => simp [esc_bracket]
  | cons d r => simp [esc_bracket, List.cons_prefix_cons, eq_comm]

theorem esc_bracket_infix_cons (c : Char) (ys : List Char) (hc : c ≠ ESC) :
    esc_bracket <:+: c :: ys ↔ esc_bracket <:+: ys := by
  rw [List.infix_cons_iff, esc_bracket_prefix_cons]
  simp [hc]

theorem esc_bracket_infix_append_cons (xs : List Char) (c : Char) (ys : List Char)
    (hc : c ≠ '[') :
    esc_bracket <:+: xs ++ c :: ys ↔ esc_bracket <:+: xs ∨ esc_bracket <:+: c :: ys := by
  induction xs with
  | nil => simp [esc_bracket]
  | cons x xs ih =>
    rw [List.cons_append, List.infix_cons_iff, List.infix_cons_iff, ih,
      esc_bracket_prefix_cons, esc_bracket_prefix_cons]
    cases xs with
    | nil => simp [hc, esc_bracket]
    | cons y r => simp [or_assoc]

/-- A literal separator that holds no escape character and does not start with `[`
neither holds nor completes an occurrence. -/
theorem esc_bracket_infix_separator (xs lit ys : List Char) (c : Char)
    (hc : c ≠ '[') (hesc : ESC ∉ c :: lit) :
    esc_bracket <:+: xs ++ (c :: lit ++ ys) ↔
      esc_bracket <:+: xs ∨ esc_bracket <:+: ys := by
  have hlit : ∀ l : List Char, ESC ∉ l →
      (esc_bracket <:+: l ++ ys ↔ esc_bracket <:+: ys) := by
    intro l hl
    induction l with
    | nil => simp
    | cons d l ih =>
      rw [List.cons_append, esc_bracket_infix_cons d _ (fun h => hl (by simp [h]))]
      exact ih (fun h => hl (by simp [h]))
  rw [List.cons_append, esc_bracket_infix_append_cons xs c _ hc, ← List.cons_append,
    hlit _ hesc]

/-- The uncoloured line holds `ESC [` exactly when one of its four variable fields does. -/
theorem esc_bracket_file_msg (env : Env) (lg : chromalog) (lvl : level) (msg : List Char) :
    esc_bracket <:+: file_msg env lg lvl msg ↔
      (esc_bracket <:+: env.timestamp ∨ esc_bracket <:+: env.thread_id.take 6 ∨
        esc_bracket <:+: lg.logger_name ∨ esc_bracket <:+: msg) := by
  have shape : file_msg env lg lvl msg
      = '[' :: (env.timestamp ++ (']' :: " [".toList ++ (env.thread_id.take 6 ++
          (']' :: (" [".toList ++ level_to_string lvl ++ "] [".toList) ++
            (lg.logger_name ++ (']' :: " ".toList ++ msg)))))) := by
    simp [file_msg]
  have htag : ESC ∉ ']' :: (" [".toList ++ level_to_string lvl ++ "] [".toList) := by
    cases lvl <;> decide
  rw [shape, esc_bracket_infix_cons _ _ (by decide),
    esc_bracket_infix_separator _ _ _ _ (by decide) (by decide),
    esc_bracket_infix_separator _ _ _ _ (by decide) htag,
    esc_bracket_infix_separator _ _ _ _ (by decide) (by decide)]

/-- Without colours the line for the primary sink is the line for the file. -/
theorem final_msg_colors_off (env : Env) (lg : chromalog) (lvl : level) (msg : List Char)
    (hc : should_use_colors env lg = false) :
    final_msg env lg lvl msg = file_msg env lg lvl msg := by
  simp [final_msg, file_msg, level_to_color, hc]

theorem should_use_colors_disabled (env : Env) (lg : chromalog)
    (hc : lg.enable_colors = false) : should_use_colors env lg = false := by
  simp [should_use_colors, hc]

/-- C6, as amended: with `enable_colors` off, whatever the auto-detect flag and the
terminal are, the line an accepted emission writes to the primary sink holds no `ESC [`,
provided the timestamp, the six characters of the thread id, the logger name and the
message hold none: the logger adds none of its own. -/
theorem colors_off_no_escape (env : Env) (lg : chromalog) (lvl : level)
    (format_str : List Char) (args : List (List Char)) (out : Sinks)
    (hc : lg.enable_colors = false)
    (hl : lvl ≠ level.off) (hacc : lg.log_level.toNat ≤ lvl.toNat)
    (hts : ¬ esc_bracket <:+: env.timestamp)
    (htid : ¬ esc_bracket <:+: env.thread_id.take 6)
    (hname : ¬ esc_bracket <:+: lg.logger_name)
    (hmsg : ¬ esc_bracket <:+: format_message format_str args) :
    ∃ line, (emit env lg lvl format_str args out).2.cout = out.cout ++ [line] ∧
      ¬ esc_bracket <:+: line := by
  refine ⟨final_msg env lg lvl (format_message format_str args), ?_, ?_⟩
  · rw [emit_eq_output_log env lg lvl format_str args out hl]
    exact (output_log_accepted env lg lvl _ out hacc).2.1
  · rw [final_msg_colors_off env lg lvl _ (should_use_colors_disabled env lg hc),
      esc_bracket_file_msg]
    rintro (h | h | h | h)
    · exact hts h
    · exact htid h
    · exact hname h
    · exact hmsg h

/-- An error message on a terminal, from a logger with colours off and auto-detect on. -/
theorem colors_off_no_escape_witness :
    ∃ line, (emit ⟨true, "12:00:00.000".toList, "7f3a".toList, fun _ => false⟩
        (new "db".toList level.info false) level.error "lost \x7b\x7d".toList
        ["link".toList] ⟨[], []⟩).2.cout = [] ++ [line] ∧ ¬ esc_bracket <:+: line :=
  colors_off_no_escape ⟨true, "12:00:00.000".toList, "7f3a".toList, fun _ => false⟩
    (new "db".toList level.info false) level.error "lost \x7b\x7d".toList
    ["link".toList] ⟨[], []⟩ rfl (by decide) (by decide) (by decide) (by decide)
    (by decide) (by decide)

/-- C6 as stated fails: the message is written as it is, so a message that holds a colour
sequence puts `ESC [` on the line of a logger whose colours are off. -/
theorem colors_off_message_escape :
    (new "db".toList level.info false).enable_colors = false ∧
    (emit ⟨false, "12:00:00.000".toList, "7f3a".toList, fun _ => false⟩
        (new "db".toList level.info false) level.info "\x1b[31mred".toList [] ⟨[], []⟩).2.cout
      = ["[12:00:00.000] [7f3a] [INFO] [db] \x1b[31mred".toList] ∧
    esc_bracket <:+: "[12:00:00.000] [7f3a] [INFO] [db] \x1b[31mred".toList := by
  refine ⟨rfl, by decide, ?_⟩
  exact ⟨"[12:00:00.000] [7f3a] [INFO] [db] ".toList, "31mred".toList, by decide⟩

/-! ## The file sink -/

/-- An emission that is not accepted changes nothing. -/
theorem emit_rejected (env : Env) (lg : chromalog) (lvl : level) (format_str : List Char)
    (args : List (List Char)) (out : Sinks)
    (h : ¬ (lvl ≠ level.off ∧ lg.log_level.toNat ≤ lvl.toNat)) :
    emit env lg lvl format_str args out = (lg, out) := by
  by_cases hl : lvl = level.off
  · subst hl; rfl
  · rw [emit_eq_output_log env lg lvl format_str args out hl]
    exact output_log_below env lg lvl _ out (by
      have : ¬ lg.log_level.toNat ≤ lvl.toNat := fun hle => h ⟨hl, hle⟩
      omega)

/-- An accepted emission on a logger whose file is open writes one line to each sink,
the line for the file being the line for the primary sink with colours off. -/
theorem emit_accepted_open (env : Env) (lg : chromalog) (lvl : level)
    (format_str : List Char) (args : List (List Char)) (out : Sinks) (path : List Char)
    (hopen : lg.log_file = some path)
    (h : lvl ≠ level.off ∧ lg.log_level.toNat ≤ lvl.toNat) :
    emit env lg lvl format_str args out
      = (lg, { cout := out.cout ++ [primary_line ⟨env, lg, lvl, format_message format_str args⟩],
               files := out.files ++
                 [(path, uncolored_line ⟨env, lg, lvl, format_message format_str args⟩)] }) := by
  have hoff : should_use_colors env (set_colors lg false) = false :=
    should_use_colors_disabled env _ rfl
  have hline : uncolored_line ⟨env, lg, lvl, format_message format_str args⟩
      = file_msg env lg lvl (format_message format_str args) := by
    unfold uncolored_line
    rw [final_msg_colors_off env _ lvl _ hoff]
    rfl
  have hlt : ¬ lvl.toNat < lg.log_level.toNat := by omega
  rw [emit_eq_output_log env lg lvl format_str args out h.1, hline]
  unfold output_log
  rw [if_neg hlt, hopen]
  rfl

/-- The run of a logger whose file is open, told by its accepted emissions. -/
theorem run_ops_open (ops : List logger_op) :
    ∀ (lg : chromalog) (out : Sinks) (path : List Char), lg.log_file = some path →
      (run_ops (lg, out) ops).2.cout
        = out.cout ++ (accepted_emissions lg ops).map primary_line ∧
      (run_ops (lg, out) ops).2.files
        = out.files ++ (accepted_emissions lg ops).map (fun e => (path, uncolored_line e)) ∧
      (run_ops (lg, out) ops).1.log_file = some path ∧
      (∀ e ∈ accepted_emissions lg ops, e.lvl ≠ level.off) := by
  induction ops with
  | nil => intro lg out path h; simp [run_ops, accepted_emissions, h]
  | cons op ops ih =>
    intro lg out path hopen
    have hrun : run_ops (lg, out) (op :: ops) = run_ops (apply_op (lg, out) op) ops := rfl
    rw [hrun]
    cases op with
    | emission env lvl format_str args =>
      by_cases hacc : lvl ≠ level.off ∧ lg.log_level.toNat ≤ lvl.toNat
      · have hstep := emit_accepted_open env lg lvl format_str args out path hopen hacc
        have hae : accepted_emissions lg (logger_op.emission env lvl format_str args :: ops)
            = ⟨env, lg, lvl, format_message format_str args⟩ :: accepted_emissions lg ops := by
          rw [accepted_emissions, if_pos hacc]
        have hap : apply_op (lg, out) (logger_op.emission env lvl format_str args)
            = emit env lg lvl format_str args out := rfl
        rw [hae, hap, hstep]
        obtain ⟨h1, h2, h3, h4⟩ := ih lg
          { cout := out.cout ++ [primary_line ⟨env, lg, lvl, format_message format_str args⟩],
            files := out.files ++
              [(path, uncolored_line ⟨env, lg, lvl, format_message format_str args⟩)] }
          path hopen
        refine ⟨by rw [h1]; simp, by rw [h2]; simp, h3, ?_⟩
        intro e he
        rcases List.mem_cons.1 he with rfl | he
        · exact hacc.1
        · exact h4 e he
      · have hstep := emit_rejected env lg lvl format_str args out hacc
        have hae : accepted_emissions lg (logger_op.emission env lvl format_str args :: ops)
            = accepted_emissions lg ops := by
          rw [accepted_emissions, if_neg hacc]
        have hap : apply_op (lg, out) (logger_op.emission env lvl format_str args)
            = emit env lg lvl format_str args out := rfl
        rw [hae, hap, hstep]
        exact ih lg out path hopen
    | set_level lvl =>
      simp only [apply_op, accepted_emissions]
      exact ih (set_level lg lvl) out path hopen
    | set_colors colors =>
      simp only [apply_op, accepted_emissions]
      exact ih (set_colors lg colors) out path hopen
    | set_auto_detect_colors auto_detect =>
      simp only [apply_op, accepted_emissions]
      exact ih (set_auto_detect_colors lg auto_detect) out path hopen

/-- C9: for a logger whose file sink is open, over any sequence of emissions and changes
of level, colours and auto-detection, the lines appended to the file are, one for one
and in the same order, those appended to the primary sink, each being the line of the
same emission for the primary sink with colours off: the plain fields, without a colour
start or reset. -/
theorem file_sink_mirrors_primary (ops : List logger_op) (lg : chromalog) (out : Sinks)
    (path : List Char) (hopen : lg.log_file = some path) :
    (run_ops (lg, out) ops).2.cout
      = out.cout ++ (accepted_emissions lg ops).map primary_line ∧
    (run_ops (lg, out) ops).2.files
      = out.files ++ (accepted_emissions lg ops).map (fun e => (path, uncolored_line e)) ∧
    ((accepted_emissions lg ops).map primary_line).length
      = ((accepted_emissions lg ops).map (fun e => (path, uncolored_line e))).length ∧
    (∀ e ∈ accepted_emissions lg ops,
      uncolored_line e = spec_line false e.env.timestamp e.env.thread_id e.lvl
        e.lg.logger_name e.msg) := by
  obtain ⟨h1, h2, -, h4⟩ := run_ops_open ops lg out path hopen
  refine ⟨h1, h2, by simp, fun e he => ?_⟩
  unfold uncolored_line
  rw [final_msg_eq_spec_line e.env _ e.lvl e.msg (h4 e he),
    should_use_colors_disabled e.env _ rfl]
  rfl

/-- A logger at level info with colours on and its file open: an info line, a rejected
debug line, then colours off and level error, a rejected warning and an error line. -/
theorem file_sink_mirrors_primary_witness :
    (run_ops (demo_logger, ⟨[], []⟩) demo_ops).2.cout
      = ["[09:00:00.001] [1a2b3c] \x1b[32m[INFO]\x1b[0m [app] \x1b[32mstart now\x1b[0m".toList,
          "[09:00:00.004] [9] [ERROR] [app] stop".toList] ∧
    (run_ops (demo_logger, ⟨[], []⟩) demo_ops).2.files
      = [("app.log".toList, "[09:00:00.001] [1a2b3c] [INFO] [app] start now".toList),
          ("app.log".toList, "[09:00:00.004] [9] [ERROR] [app] stop".toList)] :=
  ⟨(file_sink_mirrors_primary demo_ops demo_logger ⟨[], []⟩ "app.log".toList
      (by decide)).1.trans (by decide),
   (file_sink_mirrors_primary demo_ops demo_logger ⟨[], []⟩ "app.log".toList
      (by decide)).2.1.trans (by decide)⟩

/-- C5, as amended: when opening the path fails, `set_log_file` returns false and leaves
no file sink open, having closed the one that was open; the recorded path, the name, the
level and the colour flags are as before, so that nothing at all changes when no sink
was open before the call. -/
theorem set_log_file_failure (env : Env) (lg : chromalog) (file_path : List Char)
    (hfail : env.can_open file_path = false) :
    (set_log_file env lg file_path).1 = false ∧
    (set_log_file env lg file_path).2.log_file = none ∧
    (set_log_file env lg file_path).2.log_file_path = lg.log_file_path ∧
    (set_log_file env lg file_path).2.logger_name = lg.logger_name ∧
    (set_log_file env lg file_path).2.log_level = lg.log_level ∧
    (set_log_file env lg file_path).2.enable_colors = lg.enable_colors ∧
    (set_log_file env lg file_path).2.auto_detect_colors = lg.auto_detect_colors ∧
    (lg.log_file = none → (set_log_file env lg file_path).2 = lg) := by
  unfold set_log_file
  cases h : lg.log_file with
  | none => simp [hfail, h]
  | some p => simp [hfail, h]

/-- A logger writing to `a.log` is asked for a path in a directory that does not exist. -/
theorem set_log_file_failure_witness :
    (set_log_file ⟨false, [], [], fun p => p = "a.log".toList⟩
        (set_log_file ⟨false, [], [], fun p => p = "a.log".toList⟩
          (new "app".toList level.info true) "a.log".toList).2
        "missing/b.log".toList).1 = false ∧
    (set_log_file ⟨false, [], [], fun p => p = "a.log".toList⟩
        (set_log_file ⟨false, [], [], fun p => p = "a.log".toList⟩
          (new "app".toList level.info true) "a.log".toList).2
        "missing/b.log".toList).2.log_file_path = "a.log".toList :=
  ⟨(set_log_file_failure ⟨false, [], [], fun p => p = "a.log".toList⟩
      (set_log_file ⟨false, [], [], fun p => p = "a.log".toList⟩
        (new "app".toList level.info true) "a.log".toList).2
      "missing/b.log".toList (by decide)).1,
   (set_log_file_failure ⟨false, [], [], fun p => p = "a.log".toList⟩
      (set_log_file ⟨false, [], [], fun p => p = "a.log".toList⟩
        (new "app".toList level.info true) "a.log".toList).2
      "missing/b.log".toList (by decide)).2.2.1.trans (by decide)⟩

/-- C5 as stated fails: a logger whose file sink is open on `a.log` has no open file
sink after a `set_log_file` that fails, because the old sink is closed before the new
path is tried. -/
theorem set_log_file_failure_closes :
    (set_log_file ⟨false, [], [], fun p => p = "a.log".toList⟩
      (new "app".toList level.info true) "a.log".toList).2.log_file
        = some "a.log".toList ∧
    (set_log_file ⟨false, [], [], fun p => p = "a.log".toList⟩
        (set_log_file ⟨false, [], [], fun p => p = "a.log".toList⟩
          (new "app".toList level.info true) "a.log".toList).2
        "missing/b.log".toList)
      = (false, { (set_log_file ⟨false, [], [], fun p => p = "a.log".toList⟩
          (new "app".toList level.info true) "a.log".toList).2 with log_file := none }) ∧
    (set_log_file ⟨false, [], [], fun p => p = "a.log".toList⟩
        (set_log_file ⟨false, [], [], fun p => p = "a.log".toList⟩
          (new "app".toList level.info true) "a.log".toList).2
        "missing/b.log".toList).2
      ≠ (set_log_file ⟨false, [], [], fun p => p = "a.log".toList⟩
          (new "app".toList level.info true) "a.log".toList).2 := by
  decide

/-! ## The registry -/

theorem charset_length : charset.length = 63 := by decide

/-- Every entry of the table before the terminating NUL is a digit or a letter. -/
theorem charset_alphanumeric : ∀ k, k < 62 →
    (charset.getD k (Char.ofNat 0)).isAlphanum = true ∧
      charset.getD k (Char.ofNat 0) ≠ Char.ofNat 0 := by
  decide

theorem uniform_int_distribution_charset (raw : Nat) :
    uniform_int_distribution 0 (charset.length - 2) raw < 62 := by
  rw [charset_length]
  unfold uniform_int_distribution
  omega

theorem random_suffix_loop_spec (gen : Nat → Nat) (n : Nat) :
    ∀ (i : Nat) (result : List Char), ∃ added : List Char,
      random_suffix_loop gen i result n = result ++ added ∧ added.length = n ∧
      ∀ c ∈ added, c.isAlphanum = true ∧ c ≠ Char.ofNat 0 := by
  induction n with
  | zero => intro i result; exact ⟨[], by simp [random_suffix_loop], rfl, by simp⟩
  | succ n ih =>
    intro i result
    obtain ⟨added, h1, h2, h3⟩ := ih (i + 1)
      (result ++ [charset.getD (uniform_int_distribution 0 (charset.length - 2) (gen i))
        (Char.ofNat 0)])
    refine ⟨charset.getD (uniform_int_distribution 0 (charset.length - 2) (gen i))
        (Char.ofNat 0) :: added, ?_, by simp [h2], ?_⟩
    · rw [random_suffix_loop, h1]; simp
    · intro c hc
      rcases List.mem_cons.1 hc with rfl | hc
      · exact charset_alphanumeric _ (uniform_int_distribution_charset (gen i))
      · exact h3 c hc

/-- The suffix has eight characters, each a digit or a letter. -/
theorem generate_random_suffix_spec (gen : Nat → Nat) :
    (generate_random_suffix gen).1.length = 8 ∧
    ∀ c ∈ (generate_random_suffix gen).1, c.isAlphanum = true ∧ c ≠ Char.ofNat 0 := by
  obtain ⟨added, h1, h2, h3⟩ := random_suffix_loop_spec gen 8 0 []
  unfold generate_random_suffix
  simp only [h1, List.nil_append]
  exact ⟨h2, h3⟩

theorem map_find_mem (m : List (List Char × Option Nat)) (name : List Char)
    (q : Option Nat) (h : map_find m name = some q) : (name, q) ∈ m := by
  induction m with
  | nil => simp [map_find] at h
  | cons e m ih =>
    obtain ⟨k, v⟩ := e
    unfold map_find at h ih
    rw [List.lookup_cons] at h
    by_cases hk : (name == k) = true
    · rw [hk] at h
      have hv : v = q := by simpa using h
      have hk2 : name = k := by simpa using hk
      simp [hv, hk2]
    · have hk3 : (name == k) = false := by simpa using hk
      rw [hk3] at h
      exact List.mem_cons_of_mem _ (ih h)

theorem heap_alloc_new (heap : List chromalog) (obj : chromalog) :
    (heap ++ [obj])[heap.length]? = some obj := by
  simp

theorem heap_alloc_old (heap : List chromalog) (obj : chromalog) (p : Nat)
    (hp : p < heap.length) : (heap ++ [obj])[p]? = heap[p]? := by
  simp [List.getElem?_append_left hp]

theorem get_logger_absent (r : Registry) (name : List Char)
    (habsent : map_find r.loggers name = none) :
    get_logger r name
      = (some r.heap.length,
         { r with
           heap := r.heap ++ [new ("UNKNOWN_".toList ++ name ++ "_".toList
             ++ (generate_random_suffix r.gen).1) level.info true],
           gen := (generate_random_suffix r.gen).2 }) := by
  unfold get_logger
  rw [habsent]
  rfl

/-! The pointers the registry stores stay valid: this holds for the empty registry and
every operation keeps it. -/

theorem pointer_valid_mono (heap heap1 : List chromalog) (q : Option Nat)
    (hlen : heap.length ≤ heap1.length) (h : pointer_valid heap q) :
    pointer_valid heap1 q := by
  cases q with
  | none => trivial
  | some p => exact Nat.lt_of_lt_of_le h hlen

theorem pointers_valid_mono (r r1 : Registry) (hlen : r.heap.length ≤ r1.heap.length)
    (hmap : ∀ e ∈ r1.loggers, e ∈ r.loggers)
    (hdef : r1.default_logger = r.default_logger ∨ r1.default_logger = none)
    (h : pointers_valid r) : pointers_valid r1 := by
  refine ⟨fun e he => pointer_valid_mono _ _ _ hlen (h.1 e (hmap e he)), ?_⟩
  rcases hdef with hd | hd
  · rw [hd]; exact pointer_valid_mono _ _ _ hlen h.2
  · rw [hd]; trivial

theorem heap_update_length (heap : List chromalog) (p : Nat) (f : chromalog → chromalog) :
    (heap_update heap p f).length = heap.length := by
  unfold heap_update
  cases heap[p]? <;> simp

theorem for_each_logger_length (f : chromalog → chromalog) (ptrs : List (Option Nat)) :
    ∀ heap : List chromalog, (for_each_logger f ptrs heap).length = heap.length := by
  induction ptrs with
  | nil => intro heap; rfl
  | cons q ptrs ih =>
    intro heap
    unfold for_each_logger at ih ⊢
    rw [List.foldl_cons, ih]
    cases q with
    | none => rfl
    | some p => exact heap_update_length heap p f

theorem map_erase_subset (m : List (List Char × Option Nat)) (name : List Char) :
    ∀ e ∈ map_erase m name, e ∈ m := by
  intro e he
  exact List.mem_of_mem_filter he

theorem pointers_valid_empty (gen : Nat → Nat) : pointers_valid ⟨[], [], none, gen⟩ := by
  refine ⟨?_, trivial⟩
  intro e he
  simp at he

theorem pointers_valid_get_default_logger (r : Registry) (h : pointers_valid r) :
    pointers_valid (get_default_logger r).2 := by
  unfold get_default_logger
  cases hd : r.default_logger with
  | some p => simpa [hd] using h
  | none =>
    simp only [Option.isNone_none, if_true, make_shared]
    refine ⟨fun e he => pointer_valid_mono r.heap _ _ (by simp) (h.1 e he), ?_⟩
    show r.heap.length < (r.heap ++ [_]).length
    simp

theorem pointers_valid_get_logger (r : Registry) (name : List Char)
    (h : pointers_valid r) : pointers_valid (get_logger r name).2 := by
  cases hf : map_find r.loggers name with
  | some q =>
    have : get_logger r name = (q, r) := by unfold get_logger; rw [hf]
    rw [this]; exact h
  | none =>
    rw [get_logger_absent r name hf]
    exact pointers_valid_mono r _ (by simp) (fun e he => he) (Or.inl rfl) h

theorem pointers_valid_create_logger (r : Registry) (name : List Char) (lvl : level)
    (colors : Bool) (h : pointers_valid r) :
    pointers_valid (create_logger r name lvl colors).2 := by
  unfold create_logger make_shared
  refine ⟨?_, pointer_valid_mono r.heap _ _ (by simp) h.2⟩
  intro e he
  rcases List.mem_cons.1 he with rfl | he
  · show r.heap.length < (r.heap ++ [_]).length
    simp
  · exact pointer_valid_mono r.heap _ _ (by simp) (h.1 e (map_erase_subset _ _ e he))

theorem pointers_valid_register_logger (r : Registry) (logger : Option Nat)
    (h : pointers_valid r) : pointers_valid (register_logger r logger) := by
  unfold register_logger
  cases logger with
  | none => exact h
  | some p =>
    cases hp : r.heap[p]? with
    | none => simpa [hp] using h
    | some lg =>
      simp only [hp]
      refine ⟨?_, h.2⟩
      intro e he
      rcases List.mem_cons.1 he with rfl | he
      · show p < r.heap.length
        by_contra hlt
        rw [List.getElem?_eq_none (by omega)] at hp
        cases hp
      · exact h.1 e (map_erase_subset _ _ e he)

theorem pointers_valid_unregister_logger (r : Registry) (name : List Char)
    (h : pointers_valid r) : pointers_valid (unregister_logger r name) :=
  pointers_valid_mono r _ (Nat.le_refl _) (map_erase_subset _ _) (Or.inl rfl) h

theorem pointers_valid_set_global_level (r : Registry) (lvl : level)
    (h : pointers_valid r) : pointers_valid (set_global_level r lvl) := by
  refine pointers_valid_mono r _ ?_ (fun e he => he) (Or.inl rfl) h
  unfold set_global_level
  simp only [for_each_logger_length]
  exact Nat.le_refl _

theorem pointers_valid_shutdown_all_loggers (r : Registry) :
    pointers_valid (shutdown_all_loggers r) := by
  refine ⟨?_, trivial⟩
  intro e he
  simp [shutdown_all_loggers] at he

/-- C3: for a name without an entry, `get_logger` returns a pointer to a newly allocated
logger: it is no instance that existed, the instances that existed are untouched, no
entry of the map and not the default slot holds it, and a later call of this kind
returns another one.  Its name is `UNKNOWN_` + name + `_` + a suffix of eight
characters that are digits or letters, never NUL; its level is info and its colours
are on; and the map after the call is the map before it. -/
theorem get_logger_unknown (r : Registry) (name : List Char)
    (habsent : map_find r.loggers name = none) (hvalid : pointers_valid r) :
    ∃ (p : Nat) (lg : chromalog) (suffix : List Char),
      (get_logger r name).1 = some p ∧
      r.heap[p]? = none ∧
      (get_logger r name).2.heap[p]? = some lg ∧
      (get_logger r name).2.heap.take r.heap.length = r.heap ∧
      lg.logger_name = "UNKNOWN_".toList ++ name ++ "_".toList ++ suffix ∧
      suffix.length = 8 ∧
      (∀ c ∈ suffix, c.isAlphanum = true ∧ c ≠ Char.ofNat 0) ∧
      lg.log_level = level.info ∧ lg.enable_colors = true ∧
      (get_logger r name).2.loggers = r.loggers ∧
      (get_logger r name).2.default_logger = r.default_logger ∧
      map_find (get_logger r name).2.loggers name = none ∧
      map_find (get_logger r name).2.loggers lg.logger_name ≠ some (some p) ∧
      (∀ e ∈ (get_logger r name).2.loggers, e.2 ≠ some p) ∧
      (get_logger r name).2.default_logger ≠ some p ∧
      (∀ name2, map_find (get_logger r name).2.loggers name2 = none →
        (get_logger (get_logger r name).2 name2).1 ≠ some p) := by
  have hfresh : ∀ e ∈ r.loggers, e.2 ≠ some r.heap.length := by
    intro e he h
    have := hvalid.1 e he
    rw [h] at this
    exact absurd this (Nat.lt_irrefl _)
  refine ⟨r.heap.length, new ("UNKNOWN_".toList ++ name ++ "_".toList
    ++ (generate_random_suffix r.gen).1) level.info true, (generate_random_suffix r.gen).1, ?_⟩
  rw [get_logger_absent r name habsent]
  refine ⟨rfl, by simp, by simp, by simp, rfl, (generate_random_suffix_spec r.gen).1,
    (generate_random_suffix_spec r.gen).2, rfl, rfl, rfl, rfl, habsent, ?_, hfresh, ?_, ?_⟩
  · intro h
    exact hfresh _ (map_find_mem _ _ _ h) rfl
  · intro h
    have := hvalid.2
    simp only at h
    rw [h] at this
    exact absurd this (Nat.lt_irrefl _)
  · intro name2 h2
    rw [get_logger_absent _ name2 h2]
    simp

/-- A lookup of `missing` in a registry that holds `net`, `db` and a default logger. -/
theorem get_logger_unknown_witness :
    ∃ (p : Nat) (lg : chromalog) (suffix : List Char),
      (get_logger demo_registry "missing".toList).1 = some p ∧
      demo_registry.heap[p]? = none ∧
      (get_logger demo_registry "missing".toList).2.heap[p]? = some lg ∧
      (get_logger demo_registry "missing".toList).2.heap.take demo_registry.heap.length
        = demo_registry.heap ∧
      lg.logger_name = "UNKNOWN_".toList ++ "missing".toList ++ "_".toList ++ suffix ∧
      suffix.length = 8 ∧
      (∀ c ∈ suffix, c.isAlphanum = true ∧ c ≠ Char.ofNat 0) ∧
      lg.log_level = level.info ∧ lg.enable_colors = true ∧
      (get_logger demo_registry "missing".toList).2.loggers = demo_registry.loggers ∧
      (get_logger demo_registry "missing".toList).2.default_logger
        = demo_registry.default_logger ∧
      map_find (get_logger demo_registry "missing".toList).2.loggers "missing".toList
        = none ∧
      map_find (get_logger demo_registry "missing".toList).2.loggers lg.logger_name
        ≠ some (some p) ∧
      (∀ e ∈ (get_logger demo_registry "missing".toList).2.loggers, e.2 ≠ some p) ∧
      (get_logger demo_registry "missing".toList).2.default_logger ≠ some p ∧
      (∀ name2, map_find (get_logger demo_registry "missing".toList).2.loggers name2 = none →
        (get_logger (get_logger demo_registry "missing".toList).2 name2).1 ≠ some p) :=
  get_logger_unknown demo_registry "missing".toList (by decide) (by decide)

/-- C4: two calls of `create_logger` for one name return two distinct instances; the map
then has exactly one entry for the name, which holds the second instance, and
`get_logger` returns it without changing the registry; the first instance is still
allocated and is as the first call constructed it. -/
theorem create_logger_twice (r : Registry) (x : List Char) (lvl1 lvl2 : level)
    (colors1 colors2 : Bool) :
    (create_logger r x lvl1 colors1).1
      ≠ (create_logger (create_logger r x lvl1 colors1).2 x lvl2 colors2).1 ∧
    ((create_logger (create_logger r x lvl1 colors1).2 x lvl2 colors2).2.loggers.filter
      (fun e => e.1 = x)).length = 1 ∧
    map_find (create_logger (create_logger r x lvl1 colors1).2 x lvl2 colors2).2.loggers x
      = some (create_logger (create_logger r x lvl1 colors1).2 x lvl2 colors2).1 ∧
    (get_logger (create_logger (create_logger r x lvl1 colors1).2 x lvl2 colors2).2 x).1
      = (create_logger (create_logger r x lvl1 colors1).2 x lvl2 colors2).1 ∧
    (∃ p1 p2 : Nat,
      (create_logger r x lvl1 colors1).1 = some p1 ∧
      (create_logger (create_logger r x lvl1 colors1).2 x lvl2 colors2).1 = some p2 ∧
      (create_logger r x lvl1 colors1).2.heap[p1]? = some (new x lvl1 colors1) ∧
      (create_logger (create_logger r x lvl1 colors1).2 x lvl2 colors2).2.heap[p1]?
        = some (new x lvl1 colors1) ∧
      (create_logger (create_logger r x lvl1 colors1).2 x lvl2 colors2).2.heap[p2]?
        = some (new x lvl2 colors2)) := by
  have hfilter : ∀ m : List (List Char × Option Nat),
      (map_erase m x).filter (fun e => e.1 = x) = [] := by
    intro m
    simp [map_erase, List.filter_filter]
  refine ⟨?_, ?_, ?_, ?_, ?_⟩
  · simp [create_logger, make_shared]
  · simp only [create_logger, make_shared, map_assign]
    rw [List.filter_cons_of_pos (by simp), hfilter]
    rfl
  · simp [create_logger, make_shared, map_assign, map_find, List.lookup]
  · simp [get_logger, create_logger, make_shared, map_assign, map_find, List.lookup]
  · refine ⟨r.heap.length, r.heap.length + 1, rfl, ?_, ?_, ?_, ?_⟩
    · simp [create_logger, make_shared]
    · exact heap_alloc_new r.heap _
    · show ((r.heap ++ [new x lvl1 colors1]) ++ [new x lvl2 colors2])[r.heap.length]? = _
      rw [heap_alloc_old _ _ _ (by simp)]
      exact heap_alloc_new r.heap _
    · show ((r.heap ++ [new x lvl1 colors1]) ++ [new x lvl2 colors2])[r.heap.length + 1]? = _
      have := heap_alloc_new (r.heap ++ [new x lvl1 colors1]) (new x lvl2 colors2)
      simpa using this

/-! ## Fewer arguments than placeholders -/

theorem placeholder_tail_cons (c : Char) (rest : List Char) (n : Nat) :
    placeholder_tail (c :: rest) n =
      if c = '{' ∧ rest.head? = some '}' then
        match n with
        | 0 => some (c :: rest)
        | k + 1 => placeholder_tail (rest.drop 1) k
      else placeholder_tail rest n := by
  cases rest with
  | nil => cases n <;> simp [placeholder_tail]
  | cons d r => cases n <;> simp [placeholder_tail]

theorem count_placeholders_cons (c : Char) (rest : List Char) :
    count_placeholders (c :: rest) =
      if c = '{' ∧ rest.head? = some '}' then count_placeholders (rest.drop 1) + 1
      else count_placeholders rest := by
  cases rest with
  | nil => simp [count_placeholders]
  | cons d r => simp [count_placeholders]

theorem head_drop_split (c : Char) (rest : List Char)
    (h : c = '{' ∧ rest.head? = some '}') :
    c :: rest = placeholder ++ rest.drop 1 := by
  cases rest with
  | nil => simp at h
  | cons d r =>
    simp at h
    simp [placeholder, h.1, h.2]

/-- The tail at the first placeholder is a tail of the template. -/
theorem placeholder_tail_zero_suffix (T tail : List Char)
    (h : placeholder_tail T 0 = some tail) : tail <:+ T := by
  induction T with
  | nil => simp [placeholder_tail] at h
  | cons c rest ih =>
    rw [placeholder_tail_cons] at h
    by_cases hc : c = '{' ∧ rest.head? = some '}'
    · rw [if_pos hc] at h
      have : c :: rest = tail := by simpa using h
      rw [this]
    · rw [if_neg hc] at h
      exact (ih h).trans (List.suffix_cons c rest)

/-- A template with a placeholder number `n + 2` splits at its first placeholder, and the
tail sought is the tail at placeholder number `n + 1` of what follows. -/
theorem placeholder_tail_succ_split (T tail : List Char) (n : Nat)
    (h : placeholder_tail T (n + 1) = some tail) :
    ∃ front back, T = front ++ placeholder ++ back ∧ placeholder_tail back n = some tail := by
  induction T with
  | nil => simp [placeholder_tail] at h
  | cons c rest ih =>
    rw [placeholder_tail_cons] at h
    by_cases hc : c = '{' ∧ rest.head? = some '}'
    · rw [if_pos hc] at h
      exact ⟨[], rest.drop 1, by simpa using head_drop_split c rest hc, h⟩
    · rw [if_neg hc] at h
      obtain ⟨front, back, h1, h2⟩ := ih h
      exact ⟨c :: front, back, by simp [h1], h2⟩

/-- A template with more than `n` placeholders has a tail at placeholder number `n + 1`,
and that tail holds the placeholders that are left. -/
theorem placeholder_tail_exists (len : Nat) :
    ∀ (T : List Char) (n : Nat), T.length ≤ len → n < count_placeholders T →
      ∃ tail, placeholder_tail T n = some tail ∧
        count_placeholders tail = count_placeholders T - n := by
  induction len with
  | zero =>
    intro T n hlen hn
    have : T = [] := List.length_eq_zero.1 (Nat.le_zero.1 hlen)
    subst this
    simp [count_placeholders] at hn
  | succ len ih =>
    intro T n hlen hn
    cases T with
    | nil => simp [count_placeholders] at hn
    | cons c rest =>
      have hrest : rest.length ≤ len := by simpa using hlen
      rw [count_placeholders_cons] at hn
      rw [placeholder_tail_cons, count_placeholders_cons]
      by_cases hc : c = '{' ∧ rest.head? = some '}'
      · rw [if_pos hc] at hn
        simp only [if_pos hc]
        cases n with
        | zero =>
          refine ⟨c :: rest, rfl, ?_⟩
          rw [count_placeholders_cons, if_pos hc]
          rfl
        | succ k =>
          have hdrop : (rest.drop 1).length ≤ len := by
            simp only [List.length_drop]; omega
          obtain ⟨tail, h1, h2⟩ := ih (rest.drop 1) k hdrop (by omega)
          exact ⟨tail, h1, by rw [h2]; omega⟩
      · rw [if_neg hc] at hn
        simp only [if_neg hc]
        exact ih rest n hrest hn

/-- The tail behind a tail of the current string survives every substitution that is
left, since each one happens at the first placeholder of the current string. -/
theorem format_message_suffix (args : List (List Char)) :
    ∀ (s T tail : List Char), T <:+ s → placeholder_tail T args.length = some tail →
      tail <:+ format_message s args := by
  induction args with
  | nil =>
    intro s T tail hT h
    exact (placeholder_tail_zero_suffix T tail h).trans hT
  | cons b more ih =>
    intro s T tail hT h
    obtain ⟨front, back, hsplit, hback⟩ := placeholder_tail_succ_split T tail more.length h
    obtain ⟨pre, hpre⟩ := hT
    have hs : s = (pre ++ front) ++ placeholder ++ back := by
      rw [← hpre, hsplit]; simp
    obtain ⟨pos, hfind, hle⟩ := string_find_le (pre ++ front) back
    rw [← hs] at hfind
    rw [format_message, hfind]
    refine ih _ back tail ?_ hback
    have hdrop : s.drop (pos + 2) = (pre ++ front ++ placeholder).drop (pos + 2) ++ back := by
      rw [hs]
      exact List.drop_append_of_le_length (by simp [placeholder]; simp at hle; omega)
    unfold string_replace
    rw [hdrop, ← List.append_assoc]
    exact List.suffix_append _ back

/-- C10: with fewer arguments than the template has placeholders, whatever the argument
texts are, the result of `format_message` ends with the tail of the template that starts
at the placeholder after the last one an argument could take, unchanged, and the
placeholders that are left are all in that tail. -/
theorem format_message_keeps_tail (format_str : List Char) (args : List (List Char))
    (hfew : args.length < count_placeholders format_str) :
    ∃ tail, placeholder_tail format_str args.length = some tail ∧
      tail <:+ format_message format_str args ∧
      count_placeholders tail = count_placeholders format_str - args.length := by
  obtain ⟨tail, h1, h2⟩ :=
    placeholder_tail_exists format_str.length format_str args.length (Nat.le_refl _) hfew
  exact ⟨tail, h1, format_message_suffix args format_str format_str tail
    (List.suffix_refl _) h1, h2⟩

/-- Three placeholders and two arguments, one empty and one an opening brace. -/
theorem format_message_keeps_tail_witness :
    ∃ tail, placeholder_tail "a\x7b\x7db\x7b\x7dc\x7b\x7dd".toList 2 = some tail ∧
      tail <:+ format_message "a\x7b\x7db\x7b\x7dc\x7b\x7dd".toList ["".toList, "\x7b".toList] ∧
      count_placeholders tail = 3 - 2 :=
  format_message_keeps_tail "a\x7b\x7db\x7b\x7dc\x7b\x7dd".toList
    ["".toList, "\x7b".toList] (by decide)

/-! ## Opening the log file, and the substitution as a refinement -/

theorem set_log_file_name (env : Env) (lg : chromalog) (file_path : List Char) :
    (set_log_file env lg file_path).2.logger_name = lg.logger_name := by
  rcases lg with ⟨lv, nm, ec, fp, lf, ad⟩
  cases lf <;> cases hopen : env.can_open file_path <;> simp [set_log_file, hopen]

/-- C15: `set_log_file(path)` returns true exactly when opening the path succeeds, and
since it closes the sink that was open first, its result is the one it has on the logger
with the sink closed; after true the sink is open on the path and the recorded path is the
path, after false no sink is open; name, level and colour flags stay as they were. -/
theorem set_log_file_spec (env : Env) (lg : chromalog) (file_path : List Char) :
    (set_log_file env lg file_path).1 = env.can_open file_path ∧
    set_log_file env lg file_path
      = set_log_file env { lg with log_file := none } file_path ∧
    ((set_log_file env lg file_path).1 = true →
      (set_log_file env lg file_path).2.log_file = some file_path ∧
      (set_log_file env lg file_path).2.log_file_path = file_path) ∧
    ((set_log_file env lg file_path).1 = false →
      (set_log_file env lg file_path).2.log_file = none) ∧
    (set_log_file env lg file_path).2.logger_name = lg.logger_name ∧
    (set_log_file env lg file_path).2.log_level = lg.log_level ∧
    (set_log_file env lg file_path).2.enable_colors = lg.enable_colors ∧
    (set_log_file env lg file_path).2.auto_detect_colors = lg.auto_detect_colors := by
  rcases lg with ⟨lv, nm, ec, fp, lf, ad⟩
  cases lf <;> cases hopen : env.can_open file_path <;> simp [set_log_file, hopen]

/-- A logger that writes to `a.log` is given `b.log`, which opens, and then a path that
does not open. -/
theorem set_log_file_spec_witness :
    (set_log_file ⟨false, [], [], fun p => p = "b.log".toList⟩
        { new "app".toList level.info true with log_file := some "a.log".toList }
        "b.log".toList).2.log_file = some "b.log".toList ∧
    (set_log_file ⟨false, [], [], fun p => p = "b.log".toList⟩
        { new "app".toList level.info true with log_file := some "a.log".toList }
        "missing/c.log".toList).2.log_file = none :=
  ⟨((set_log_file_spec ⟨false, [], [], fun p => p = "b.log".toList⟩
      { new "app".toList level.info true with log_file := some "a.log".toList }
      "b.log".toList).2.2.1 (by decide)).1,
   (set_log_file_spec ⟨false, [], [], fun p => p = "b.log".toList⟩
      { new "app".toList level.info true with log_file := some "a.log".toList }
      "missing/c.log".toList).2.2.2.1 (by decide)⟩

/-- C18: on argument texts that are non-empty and hold no brace, the recursive
`format_message`, which searches again from the start after each substitution, returns
what one pass from left to right over the template returns; with an argument text that
is empty, or one that holds a brace, the two results can differ. -/
theorem format_message_refines_single_pass :
    (∀ (format_str : List Char) (args : List (List Char)),
      (∀ a ∈ args, plain_text a) →
        format_message format_str args = single_pass format_str args) ∧
    (∃ (format_str : List Char) (args : List (List Char)),
      (∃ a ∈ args, a = [] ∨ '{' ∈ a ∨ '}' ∈ a) ∧
        format_message format_str args ≠ single_pass format_str args) ∧
    format_message "\x7b\x7b\x7d\x7d".toList ["".toList, "x".toList]
      ≠ single_pass "\x7b\x7b\x7d\x7d".toList ["".toList, "x".toList] ∧
    format_message "\x7b\x7d \x7b\x7d".toList ["\x7b\x7d".toList, "x".toList]
      ≠ single_pass "\x7b\x7d \x7b\x7d".toList ["\x7b\x7d".toList, "x".toList] := by
  refine ⟨fun format_str args hargs => ?_, ?_, by decide, by decide⟩
  · simpa using format_message_settled args hargs [] format_str settled_nil
  · exact ⟨"\x7b\x7b\x7d\x7d".toList, ["".toList, "x".toList],
      ⟨[], by simp, Or.inl rfl⟩, by decide⟩

/-- Three placeholders and two plain arguments. -/
theorem format_message_refines_single_pass_witness :
    format_message "\x7b\x7d-\x7b\x7d-\x7b\x7d".toList ["1".toList, "22".toList]
      = "1-22-\x7b\x7d".toList :=
  (format_message_refines_single_pass.1 "\x7b\x7d-\x7b\x7d-\x7b\x7d".toList
    ["1".toList, "22".toList] (by decide)).trans (by decide)

/-! ## The two bulk operations -/

theorem heap_update_get (heap : List chromalog) (p : Nat) (f : chromalog → chromalog)
    (i : Nat) :
    (heap_update heap p f)[i]? = if i = p then heap[i]?.map f else heap[i]? := by
  unfold heap_update
  cases hp : heap[p]? with
  | none =>
    by_cases h : i = p
    · subst h; simp [hp]
    · simp [h]
  | some lg =>
    rw [List.getElem?_set]
    by_cases h : i = p
    · subst h
      have hlt : i < heap.length := by
        by_contra hge
        rw [List.getElem?_eq_none (by omega)] at hp
        cases hp
      simp [hp, hlt]
    · have h2 : ¬ p = i := fun e => h e.symm
      simp [h, h2]

theorem count_cons_ne (a b : Option Nat) (l : List (Option Nat)) (h : b ≠ a) :
    (b :: l).count a = l.count a := by
  simp [List.count_cons, h]

/-- The object at an index after the loop: the setter has been called on it as often as
its pointer occurs. -/
theorem for_each_logger_get (f : chromalog → chromalog) (ptrs : List (Option Nat)) :
    ∀ (heap : List chromalog) (i : Nat),
      (for_each_logger f ptrs heap)[i]? = heap[i]?.map (f^[ptrs.count (some i)]) := by
  induction ptrs with
  | nil => intro heap i; simp [for_each_logger]
  | cons q ptrs ih =>
    intro heap i
    have hstep : for_each_logger f (q :: ptrs) heap
        = for_each_logger f ptrs (match q with
            | some p => heap_update heap p f
            | none => heap) := by
      unfold for_each_logger
      rw [List.foldl_cons]
    rw [hstep, ih]
    cases q with
    | none => simp
    | some p =>
      simp only [heap_update_get]
      by_cases h : i = p
      · subst h
        rw [if_pos rfl, List.count_cons_self, Function.iterate_succ]
        cases heap[i]? <;> simp
      · rw [if_neg h, count_cons_ne _ _ _ (fun e => h (Option.some.inj e).symm)]

theorem iterate_idempotent (f : chromalog → chromalog) (hf : ∀ lg, f (f lg) = f lg)
    (n : Nat) : ∀ lg : chromalog, f^[n + 1] lg = f lg := by
  induction n with
  | zero => intro lg; rfl
  | succ n ih => intro lg; rw [Function.iterate_succ_apply, ih, hf]

/-- The object at an index after both loops of a bulk operation with an idempotent
setter: the setter applied once if a stored pointer refers to it, untouched otherwise. -/
theorem bulk_get (f : chromalog → chromalog) (hf : ∀ lg, f (f lg) = f lg)
    (ptrs : List (Option Nat)) (d : Option Nat) (heap : List chromalog) (i : Nat) :
    (for_each_logger f [d] (for_each_logger f ptrs heap))[i]?
      = if some i ∈ ptrs ∨ d = some i then heap[i]?.map f else heap[i]? := by
  rw [for_each_logger_get, for_each_logger_get]
  cases hi : heap[i]? with
  | none => simp
  | some lg =>
    simp only [Option.map_some']
    by_cases h1 : some i ∈ ptrs
    · obtain ⟨n, hn⟩ : ∃ n, ptrs.count (some i) = n + 1 :=
        ⟨ptrs.count (some i) - 1, by have := List.count_pos_iff.2 h1; omega⟩
      rw [if_pos (Or.inl h1), hn, iterate_idempotent f hf]
      by_cases h2 : d = some i
      · subst h2
        simp [hf]
      · rw [count_cons_ne _ _ _ h2]
        rfl
    · rw [List.count_eq_zero_of_not_mem h1]
      by_cases h2 : d = some i
      · subst h2
        simp
      · rw [count_cons_ne _ _ _ h2, if_neg (by simp [h1, h2])]
        rfl

theorem mem_stored_pointers (r : Registry) (e : List Char × Option Nat) (p : Nat)
    (he : e ∈ r.loggers) (hp : e.2 = some p) :
    some p ∈ r.loggers.map (fun pair => pair.2) :=
  List.mem_map.2 ⟨e, he, hp⟩

/-- C14: after `set_global_level(l)` every logger of the map and the default logger, if
there is one, is what it was with level `l`, so that `get_level()` is `l`; the map, with
its names and the instance under each name, and the default slot are unchanged; and every
logger that no entry and not the default slot refers to is as it was. -/
theorem set_global_level_spec (r : Registry) (lvl : level) :
    (set_global_level r lvl).loggers = r.loggers ∧
    (set_global_level r lvl).default_logger = r.default_logger ∧
    get_logger_names (set_global_level r lvl) = get_logger_names r ∧
    (set_global_level r lvl).heap.length = r.heap.length ∧
    (∀ e ∈ r.loggers, ∀ p, e.2 = some p →
      (set_global_level r lvl).heap[p]? = r.heap[p]?.map (fun lg => set_level lg lvl) ∧
      ∀ lg, (set_global_level r lvl).heap[p]? = some lg → get_level lg = lvl) ∧
    (∀ p, r.default_logger = some p →
      (set_global_level r lvl).heap[p]? = r.heap[p]?.map (fun lg => set_level lg lvl) ∧
      ∀ lg, (set_global_level r lvl).heap[p]? = some lg → get_level lg = lvl) ∧
    (∀ p, (∀ e ∈ r.loggers, e.2 ≠ some p) → r.default_logger ≠ some p →
      (set_global_level r lvl).heap[p]? = r.heap[p]?) := by
  have hget : ∀ i, (set_global_level r lvl).heap[i]?
      = if some i ∈ r.loggers.map (fun pair => pair.2) ∨ r.default_logger = some i
        then r.heap[i]?.map (fun lg => set_level lg lvl) else r.heap[i]? := fun i =>
    bulk_get (fun lg => set_level lg lvl) (fun _ => rfl) _ _ r.heap i
  have hlevel : ∀ (p : Nat) (lg : chromalog),
      (r.heap[p]?).map (fun lg => set_level lg lvl) = some lg → get_level lg = lvl := by
    intro p lg h
    cases hp : r.heap[p]? with
    | none => simp [hp] at h
    | some lg0 =>
      have : set_level lg0 lvl = lg := by simpa [hp] using h
      rw [← this]; rfl
  refine ⟨rfl, rfl, rfl, ?_, ?_, ?_, ?_⟩
  · simp [set_global_level, for_each_logger_length]
  · intro e he p hp
    have h := hget p
    rw [if_pos (Or.inl (mem_stored_pointers r e p he hp))] at h
    exact ⟨h, fun lg hlg => hlevel p lg (h ▸ hlg)⟩
  · intro p hp
    have h := hget p
    rw [if_pos (Or.inr hp)] at h
    exact ⟨h, fun lg hlg => hlevel p lg (h ▸ hlg)⟩
  · intro p hmap hdef
    have h := hget p
    rw [if_neg] at h
    · exact h
    · rintro (hm | hd)
      · obtain ⟨e, he, hp⟩ := List.mem_map.1 hm
        exact hmap e he hp
      · exact hdef hd

/-- The level error is set in a registry with two registered loggers, a default logger
and one logger that is no longer registered. -/
theorem set_global_level_spec_witness :
    (set_global_level demo_registry_files level.error).heap.map get_level
      = [level.error, level.error, level.error, level.trace] ∧
    get_logger_names (set_global_level demo_registry_files level.error)
      = ["db".toList, "net".toList] :=
  ⟨by
    have h := set_global_level_spec demo_registry_files level.error
    have h0 := (h.2.2.2.2.1 ("net".toList, some 0) (by decide) 0 rfl).1
    have h1 := (h.2.2.2.2.1 ("db".toList, some 1) (by decide) 1 rfl).1
    have h2 := (h.2.2.2.2.2.1 2 rfl).1
    have h3 := h.2.2.2.2.2.2 3 (by decide) (by decide)
    have hlen := h.2.2.2.1
    generalize (set_global_level demo_registry_files level.error).heap = heap at *
    match heap, hlen, h0, h1, h2, h3 with
    | [a, b, c, d], _, h0, h1, h2, h3 =>
      simp only [List.getElem?_cons_zero, List.getElem?_cons_succ] at h0 h1 h2 h3
      cases h0; cases h1; cases h2; cases h3
      decide,
   (set_global_level_spec demo_registry_files level.error).2.2.1.trans (by decide)⟩

theorem close_log_file_closed (lg : chromalog) : (close_log_file lg).log_file = none := by
  rcases lg with ⟨lv, nm, ec, fp, lf, ad⟩
  cases lf <;> simp [close_log_file]

theorem close_log_file_idempotent (lg : chromalog) :
    close_log_file (close_log_file lg) = close_log_file lg := by
  rcases lg with ⟨lv, nm, ec, fp, lf, ad⟩
  cases lf <;> simp [close_log_file]

theorem shutdown_all_loggers_get (r : Registry) (i : Nat) :
    (shutdown_all_loggers r).heap[i]?
      = if some i ∈ r.loggers.map (fun pair => pair.2) ∨ r.default_logger = some i
        then r.heap[i]?.map close_log_file else r.heap[i]? :=
  bulk_get close_log_file close_log_file_idempotent _ _ r.heap i

theorem get_default_logger_empty (r : Registry) (h : r.default_logger = none) :
    get_default_logger r
      = (some r.heap.length,
         { r with heap := r.heap ++ [new "default".toList level.info true],
                  default_logger := some r.heap.length }) := by
  unfold get_default_logger
  rw [h]
  rfl

/-- C13: after `shutdown_all_loggers` the file sink of every logger that was registered
and of the default logger that existed is closed, `get_logger_names` is empty and the
default slot is empty; the next `get_default_logger` returns a newly constructed logger
named `default`, at level info, with colours on, which is no logger that existed before
the shutdown and so neither the old default logger nor one that was registered. -/
theorem shutdown_all_loggers_spec (r : Registry) (hvalid : pointers_valid r) :
    (∀ e ∈ r.loggers, ∀ p, e.2 = some p →
      ∃ lg, (shutdown_all_loggers r).heap[p]? = some lg ∧ lg.log_file = none) ∧
    (∀ p, r.default_logger = some p →
      ∃ lg, (shutdown_all_loggers r).heap[p]? = some lg ∧ lg.log_file = none) ∧
    get_logger_names (shutdown_all_loggers r) = [] ∧
    (shutdown_all_loggers r).default_logger = none ∧
    (∃ p, (get_default_logger (shutdown_all_loggers r)).1 = some p ∧
      r.heap[p]? = none ∧
      (shutdown_all_loggers r).heap[p]? = none ∧
      (get_default_logger (shutdown_all_loggers r)).2.heap[p]?
        = some (new "default".toList level.info true) ∧
      (new "default".toList level.info true).logger_name = "default".toList ∧
      (new "default".toList level.info true).log_level = level.info ∧
      (new "default".toList level.info true).enable_colors = true ∧
      r.default_logger ≠ some p ∧
      (∀ e ∈ r.loggers, e.2 ≠ some p) ∧
      (get_default_logger (shutdown_all_loggers r)).2.default_logger = some p) := by
  have hlen : (shutdown_all_loggers r).heap.length = r.heap.length := by
    simp [shutdown_all_loggers, for_each_logger_length]
  have hclosed : ∀ p : Nat, p < r.heap.length →
      (some p ∈ r.loggers.map (fun pair => pair.2) ∨ r.default_logger = some p) →
      ∃ lg, (shutdown_all_loggers r).heap[p]? = some lg ∧ lg.log_file = none := by
    intro p hp hmem
    rw [shutdown_all_loggers_get, if_pos hmem, List.getElem?_eq_getElem hp]
    exact ⟨_, rfl, close_log_file_closed _⟩
  refine ⟨?_, ?_, rfl, rfl, ?_⟩
  · intro e he p hp
    have hv := hvalid.1 e he
    rw [hp] at hv
    exact hclosed p hv (Or.inl (mem_stored_pointers r e p he hp))
  · intro p hp
    have hv := hvalid.2
    rw [hp] at hv
    exact hclosed p hv (Or.inr hp)
  · refine ⟨r.heap.length, ?_, by simp, ?_, ?_, rfl, rfl, rfl, ?_, ?_, ?_⟩
    · rw [get_default_logger_empty _ rfl, hlen]
    · rw [List.getElem?_eq_none (by omega)]
    · rw [get_default_logger_empty _ rfl]
      show ((shutdown_all_loggers r).heap ++ [_])[r.heap.length]? = _
      rw [← hlen]
      exact heap_alloc_new _ _
    · intro h
      have hv := hvalid.2
      rw [h] at hv
      exact absurd hv (Nat.lt_irrefl _)
    · intro e he h
      have hv := hvalid.1 e he
      rw [h] at hv
      exact absurd hv (Nat.lt_irrefl _)
    · rw [get_default_logger_empty _ rfl, hlen]

/-- The shutdown of a registry in which a registered logger and the default logger
write to files. -/
theorem shutdown_all_loggers_spec_witness :
    (∃ lg, (shutdown_all_loggers demo_registry_files).heap[1]? = some lg ∧
      lg.log_file = none) ∧
    (∃ lg, (shutdown_all_loggers demo_registry_files).heap[2]? = some lg ∧
      lg.log_file = none) ∧
    get_logger_names (shutdown_all_loggers demo_registry_files) = [] :=
  ⟨(shutdown_all_loggers_spec demo_registry_files (by decide)).1
      ("db".toList, some 1) (by decide) 1 rfl,
   (shutdown_all_loggers_spec demo_registry_files (by decide)).2.1 2 rfl,
   (shutdown_all_loggers_spec demo_registry_files (by decide)).2.2.1⟩

/-! ## Programs on the registry -/

theorem names_kept_refl (heap : List chromalog) : names_kept heap heap :=
  fun _ lg h => ⟨lg, h, rfl⟩

theorem names_kept_append (heap : List chromalog) (obj : chromalog) :
    names_kept heap (heap ++ [obj]) := by
  intro p lg h
  have hp : p < heap.length := by
    by_contra hge
    rw [List.getElem?_eq_none (by omega)] at h
    cases h
  exact ⟨lg, by rw [heap_alloc_old heap obj p hp]; exact h, rfl⟩

theorem names_kept_of_get (heap heap1 : List chromalog) (f : chromalog → chromalog)
    (hf : ∀ lg, (f lg).logger_name = lg.logger_name)
    (h : ∀ i : Nat, heap1[i]? = heap[i]? ∨ heap1[i]? = (heap[i]?).map f) :
    names_kept heap heap1 := by
  intro p lg hp
  rcases h p with h1 | h1
  · exact ⟨lg, by rw [h1, hp], rfl⟩
  · exact ⟨f lg, by rw [h1, hp]; rfl, hf lg⟩

theorem apply_setter_name (s : setter) (lg : chromalog) :
    (apply_setter s lg).logger_name = lg.logger_name := by
  cases s with
  | set_level lvl => rfl
  | set_colors colors => rfl
  | set_auto_detect_colors auto_detect => rfl
  | set_log_file env file_path => exact set_log_file_name env lg file_path
  | close_log_file =>
    rcases lg with ⟨lv, nm, ec, fp, lf, ad⟩
    cases lf <;> rfl

theorem register_logger_some (r : Registry) (p : Nat) (lg : chromalog)
    (h : r.heap[p]? = some lg) :
    register_logger r (some p)
      = { r with loggers := map_assign r.loggers (get_name lg) (some p) } := by
  simp only [register_logger, h]

theorem register_logger_dangling (r : Registry) (p : Nat) (h : r.heap[p]? = none) :
    register_logger r (some p) = r := by
  simp only [register_logger, h]

theorem register_logger_heap (r : Registry) (logger : Option Nat) :
    (register_logger r logger).heap = r.heap := by
  cases logger with
  | none => rfl
  | some p =>
    cases hp : r.heap[p]? with
    | none => rw [register_logger_dangling r p hp]
    | some lg => rw [register_logger_some r p lg hp]

/-- No step changes the name of a logger or removes a logger. -/
theorem registry_step_names_kept (r : Registry) (op : registry_op) :
    names_kept r.heap (registry_step r op).heap := by
  cases op with
  | get_default_logger =>
    cases hd : r.default_logger with
    | none =>
      show names_kept r.heap (get_default_logger r).2.heap
      rw [get_default_logger_empty r hd]
      exact names_kept_append _ _
    | some p =>
      have : (get_default_logger r).2 = r := by simp [get_default_logger, hd]
      show names_kept r.heap (get_default_logger r).2.heap
      rw [this]
      exact names_kept_refl _
  | get_logger name =>
    show names_kept r.heap (get_logger r name).2.heap
    cases hf : map_find r.loggers name with
    | some q =>
      have : get_logger r name = (q, r) := by unfold get_logger; rw [hf]
      rw [this]
      exact names_kept_refl _
    | none =>
      rw [get_logger_absent r name hf]
      exact names_kept_append _ _
  | create_logger name lvl colors => exact names_kept_append _ _
  | register_logger logger =>
    show names_kept r.heap (register_logger r logger).heap
    rw [register_logger_heap]
    exact names_kept_refl _
  | unregister_logger name => exact names_kept_refl _
  | get_logger_names => exact names_kept_refl _
  | set_global_level lvl =>
    refine names_kept_of_get _ _ (fun lg => set_level lg lvl) (fun _ => rfl) (fun i => ?_)
    have h := bulk_get (fun lg => set_level lg lvl) (fun _ => rfl)
      (r.loggers.map (fun pair => pair.2)) r.default_logger r.heap i
    by_cases hc : some i ∈ r.loggers.map (fun pair => pair.2) ∨ r.default_logger = some i
    · rw [if_pos hc] at h; exact Or.inr h
    · rw [if_neg hc] at h; exact Or.inl h
  | shutdown_all_loggers =>
    refine names_kept_of_get _ _ close_log_file
      (fun lg => apply_setter_name setter.close_log_file lg) (fun i => ?_)
    have h := shutdown_all_loggers_get r i
    by_cases hc : some i ∈ r.loggers.map (fun pair => pair.2) ∨ r.default_logger = some i
    · rw [if_pos hc] at h; exact Or.inr h
    · rw [if_neg hc] at h; exact Or.inl h
  | construct name lvl colors => exact names_kept_append _ _
  | configure p s =>
    refine names_kept_of_get _ _ (apply_setter s) (apply_setter_name s) (fun i => ?_)
    have h := heap_update_get r.heap p (apply_setter s) i
    by_cases hc : i = p
    · rw [if_pos hc] at h; exact Or.inr h
    · rw [if_neg hc] at h; exact Or.inl h

theorem names_kept_length (heap heap1 : List chromalog) (h : names_kept heap heap1) :
    heap.length ≤ heap1.length := by
  by_contra hlt
  have hlt : heap1.length < heap.length := by omega
  obtain ⟨lg1, h1, -⟩ := h heap1.length _ (List.getElem?_eq_getElem hlt)
  rw [List.getElem?_eq_none (Nat.le_refl _)] at h1
  cases h1

theorem map_find_cons (k : List Char) (v : Option Nat) (m : List (List Char × Option Nat))
    (name : List Char) :
    map_find ((k, v) :: m) name = if k = name then some v else map_find m name := by
  unfold map_find
  rw [List.lookup_cons]
  by_cases h : k = name
  · subst h; simp
  · have : (name == k) = false := by simpa using fun e => h e.symm
    rw [this, if_neg h]

theorem map_find_erase (m : List (List Char × Option Nat)) (k name : List Char) :
    map_find (map_erase m k) name = if k = name then none else map_find m name := by
  induction m with
  | nil => simp [map_erase, map_find]
  | cons e m ih =>
    obtain ⟨k1, v1⟩ := e
    unfold map_erase at ih ⊢
    by_cases hk : k1 = k
    · subst hk
      rw [List.filter_cons_of_neg (by simp), ih, map_find_cons]
      by_cases h : k1 = name <;> simp [h]
    · rw [List.filter_cons_of_pos (by simpa using hk), map_find_cons, ih, map_find_cons]
      by_cases h : k = name
      · subst h
        simp [hk]
      · simp [h]

theorem map_find_assign (m : List (List Char × Option Nat)) (k name : List Char)
    (v : Option Nat) :
    map_find (map_assign m k v) name = if k = name then some v else map_find m name := by
  unfold map_assign
  rw [map_find_cons, map_find_erase]
  by_cases h : k = name
  · rw [if_pos h, if_pos h]
  · rw [if_neg h, if_neg h, if_neg h]

theorem map_find_none_iff (m : List (List Char × Option Nat)) (name : List Char) :
    map_find m name = none ↔ name ∉ m.map (fun pair => pair.1) := by
  induction m with
  | nil => simp [map_find]
  | cons e m ih =>
    obtain ⟨k, v⟩ := e
    rw [map_find_cons]
    by_cases h : k = name
    · subst h; simp
    · rw [if_neg h, ih]
      simp only [List.map_cons, List.mem_cons, not_or]
      exact ⟨fun hm => ⟨fun e => h e.symm, hm⟩, fun hm => hm.2⟩

theorem map_erase_of_absent (m : List (List Char × Option Nat)) (name : List Char)
    (h : map_find m name = none) : map_erase m name = m := by
  rw [map_find_none_iff] at h
  unfold map_erase
  rw [List.filter_eq_self]
  intro e he
  have : e.1 ≠ name := fun heq => h (List.mem_map.2 ⟨e, he, heq⟩)
  simpa using this

theorem map_erase_keys_nodup (m : List (List Char × Option Nat)) (name : List Char)
    (h : (m.map (fun pair => pair.1)).Nodup) :
    ((map_erase m name).map (fun pair => pair.1)).Nodup :=
  List.Nodup.sublist (List.Sublist.map _ (List.filter_sublist m)) h

theorem map_assign_keys_nodup (m : List (List Char × Option Nat)) (name : List Char)
    (v : Option Nat) (h : (m.map (fun pair => pair.1)).Nodup) :
    ((map_assign m name v).map (fun pair => pair.1)).Nodup := by
  unfold map_assign
  rw [List.map_cons, List.nodup_cons]
  refine ⟨?_, map_erase_keys_nodup m name h⟩
  rw [← map_find_none_iff, map_find_erase, if_pos rfl]

theorem count_eq_one_of_nodup (l : List (List Char)) (a : List Char) (hnd : l.Nodup)
    (h : a ∈ l) : l.count a = 1 := by
  induction l with
  | nil => cases h
  | cons b l ih =>
    rw [List.nodup_cons] at hnd
    rw [List.count_cons]
    rcases List.mem_cons.1 h with rfl | h
    · rw [List.count_eq_zero_of_not_mem hnd.1]
      simp
    · have hne : b ≠ a := fun e => hnd.1 (e ▸ h)
      rw [ih hnd.2 h]
      simp [hne]

theorem pointers_valid_step (r : Registry) (op : registry_op) (h : pointers_valid r) :
    pointers_valid (registry_step r op) := by
  cases op with
  | get_default_logger => exact pointers_valid_get_default_logger r h
  | get_logger name => exact pointers_valid_get_logger r name h
  | create_logger name lvl colors => exact pointers_valid_create_logger r name lvl colors h
  | register_logger logger => exact pointers_valid_register_logger r logger h
  | unregister_logger name => exact pointers_valid_unregister_logger r name h
  | get_logger_names => exact h
  | set_global_level lvl => exact pointers_valid_set_global_level r lvl h
  | shutdown_all_loggers => exact pointers_valid_shutdown_all_loggers r
  | construct name lvl colors =>
    exact pointers_valid_mono r _ (by simp [registry_step, make_shared]) (fun e he => he)
      (Or.inl rfl) h
  | configure p s =>
    exact pointers_valid_mono r _ (by simp [registry_step, heap_update_length])
      (fun e he => he) (Or.inl rfl) h

theorem keys_named_of_subset (r r1 : Registry) (hheap : names_kept r.heap r1.heap)
    (hsub : ∀ e ∈ r1.loggers, e ∈ r.loggers) (h : keys_named r) : keys_named r1 := by
  intro e he
  obtain ⟨p, lg, h1, h2, h3⟩ := h e (hsub e he)
  obtain ⟨lg1, h4, h5⟩ := hheap p lg h2
  exact ⟨p, lg1, h1, h4, by unfold get_name at h3 ⊢; rw [h5]; exact h3⟩

theorem keys_named_step (r : Registry) (op : registry_op) (h : keys_named r) :
    keys_named (registry_step r op) := by
  have hkept := registry_step_names_kept r op
  cases op with
  | get_default_logger =>
    refine keys_named_of_subset r _ hkept (fun e he => ?_) h
    have : (get_default_logger r).2.loggers = r.loggers := by
      unfold get_default_logger make_shared
      cases r.default_logger <;> rfl
    exact this ▸ he
  | get_logger name =>
    refine keys_named_of_subset r _ hkept (fun e he => ?_) h
    have : (get_logger r name).2.loggers = r.loggers := by
      cases hf : map_find r.loggers name with
      | some q =>
        have : get_logger r name = (q, r) := by unfold get_logger; rw [hf]
        rw [this]
      | none => rw [get_logger_absent r name hf]
    exact this ▸ he
  | create_logger name lvl colors =>
    intro e he
    rcases List.mem_cons.1 he with rfl | he
    · exact ⟨r.heap.length, new name lvl colors, rfl, heap_alloc_new _ _, rfl⟩
    · exact keys_named_of_subset r ⟨(registry_step r (.create_logger name lvl colors)).heap,
        map_erase r.loggers name, r.default_logger, r.gen⟩ hkept
        (map_erase_subset _ _) h e he
  | register_logger logger =>
    cases logger with
    | none => exact h
    | some p =>
      cases hp : r.heap[p]? with
      | none =>
        show keys_named (register_logger r (some p))
        rw [register_logger_dangling r p hp]; exact h
      | some lg =>
        show keys_named (register_logger r (some p))
        rw [register_logger_some r p lg hp]
        intro e he
        rcases List.mem_cons.1 he with rfl | he
        · exact ⟨p, lg, rfl, hp, rfl⟩
        · exact h e (map_erase_subset _ _ e he)
  | unregister_logger name =>
    exact keys_named_of_subset r _ hkept (map_erase_subset _ _) h
  | get_logger_names => exact h
  | set_global_level lvl => exact keys_named_of_subset r _ hkept (fun e he => he) h
  | shutdown_all_loggers =>
    intro e he
    simp [registry_step, shutdown_all_loggers] at he
  | construct name lvl colors => exact keys_named_of_subset r _ hkept (fun e he => he) h
  | configure p s => exact keys_named_of_subset r _ hkept (fun e he => he) h

theorem registry_step_names (r : Registry) (op : registry_op) :
    get_logger_names (registry_step r op) = get_logger_names r ∨
    (∃ name v, (registry_step r op).loggers = map_assign r.loggers name v) ∨
    (∃ name, (registry_step r op).loggers = map_erase r.loggers name) ∨
    (registry_step r op).loggers = [] := by
  cases op with
  | get_default_logger =>
    left
    unfold get_logger_names registry_step get_default_logger make_shared
    cases r.default_logger <;> rfl
  | get_logger name =>
    left
    show get_logger_names (get_logger r name).2 = _
    cases hf : map_find r.loggers name with
    | some q =>
      have : get_logger r name = (q, r) := by unfold get_logger; rw [hf]
      rw [this]
    | none => rw [get_logger_absent r name hf]; rfl
  | create_logger name lvl colors => exact Or.inr (Or.inl ⟨name, _, rfl⟩)
  | register_logger logger =>
    cases logger with
    | none => exact Or.inl rfl
    | some p =>
      cases hp : r.heap[p]? with
      | none =>
        left
        show get_logger_names (register_logger r (some p)) = _
        rw [register_logger_dangling r p hp]
      | some lg =>
        right; left
        refine ⟨get_name lg, some p, ?_⟩
        show (register_logger r (some p)).loggers = _
        rw [register_logger_some r p lg hp]
  | unregister_logger name => exact Or.inr (Or.inr (Or.inl ⟨name, rfl⟩))
  | get_logger_names => exact Or.inl rfl
  | set_global_level lvl => exact Or.inl rfl
  | shutdown_all_loggers => exact Or.inr (Or.inr (Or.inr rfl))
  | construct name lvl colors => exact Or.inl rfl
  | configure p s => exact Or.inl rfl

theorem registry_inv_step (r : Registry) (op : registry_op) (h : registry_inv r) :
    registry_inv (registry_step r op) := by
  refine ⟨pointers_valid_step r op h.1, keys_named_step r op h.2.1, ?_⟩
  have hnd := h.2.2
  unfold get_logger_names at hnd ⊢
  rcases registry_step_names r op with h1 | ⟨name, v, h1⟩ | ⟨name, h1⟩ | h1
  · unfold get_logger_names at h1
    rw [h1]; exact hnd
  · rw [h1]; exact map_assign_keys_nodup _ _ _ hnd
  · rw [h1]; exact map_erase_keys_nodup _ _ hnd
  · rw [h1]; exact List.nodup_nil

theorem registry_inv_empty (gen : Nat → Nat) : registry_inv (empty_registry gen) := by
  refine ⟨pointers_valid_empty gen, ?_, List.nodup_nil⟩
  intro e he
  simp [empty_registry] at he

theorem registry_inv_run (ops : List registry_op) :
    ∀ r : Registry, registry_inv r → registry_inv (run_registry r ops) := by
  induction ops with
  | nil => intro r h; exact h
  | cons op ops ih => intro r h; exact ih _ (registry_inv_step r op h)

/-- Without moves: in every state reached from the empty registry by steps on the
registry, every entry of the map holds a pointer that is not null to a logger whose own
`get_name()` is the key of the entry, and `get_logger_names` returns every key exactly
once. -/
theorem reachable_registry_keys (gen : Nat → Nat) (ops : List registry_op) :
    (∀ e ∈ (run_registry (empty_registry gen) ops).loggers,
      ∃ p lg, e.2 = some p ∧
        (run_registry (empty_registry gen) ops).heap[p]? = some lg ∧ get_name lg = e.1) ∧
    (∀ e ∈ (run_registry (empty_registry gen) ops).loggers,
      (get_logger_names (run_registry (empty_registry gen) ops)).count e.1 = 1) ∧
    (∀ name, name ∈ get_logger_names (run_registry (empty_registry gen) ops) ↔
      map_find (run_registry (empty_registry gen) ops).loggers name ≠ none) := by
  obtain ⟨-, hnamed, hnodup⟩ := registry_inv_run ops _ (registry_inv_empty gen)
  refine ⟨hnamed, fun e he => ?_, fun name => ?_⟩
  · exact count_eq_one_of_nodup _ _ hnodup (List.mem_map.2 ⟨e, he, rfl⟩)
  · rw [Ne, map_find_none_iff, not_not]
    rfl

theorem get_logger_present (r : Registry) (name : List Char) (q : Option Nat)
    (h : map_find r.loggers name = some q) : get_logger r name = (q, r) := by
  unfold get_logger
  rw [h]

/-- One step changes the entry of a name in the map as its event changes the reference
map. -/
theorem map_find_step (r : Registry) (op : registry_op) (name : List Char)
    (entry : Option Nat) (h : map_find r.loggers name = entry.map some) :
    map_find (registry_step r op).loggers name
      = (reference_step name entry (observe r op)).map some := by
  cases op with
  | get_default_logger =>
    have : (get_default_logger r).2.loggers = r.loggers := by
      unfold get_default_logger make_shared
      cases r.default_logger <;> rfl
    show map_find (get_default_logger r).2.loggers name = _
    rw [this]; exact h
  | get_logger n =>
    have : (get_logger r n).2.loggers = r.loggers := by
      cases hf : map_find r.loggers n with
      | some q => rw [get_logger_present r n q hf]
      | none => rw [get_logger_absent r n hf]
    show map_find (get_logger r n).2.loggers name = _
    rw [this]; exact h
  | create_logger n lvl colors =>
    show map_find (map_assign r.loggers n (some r.heap.length)) name
      = (reference_step name entry (history_event.inserted n r.heap.length)).map some
    rw [map_find_assign, reference_step]
    by_cases hn : n = name
    · rw [if_pos hn, if_pos hn]; rfl
    · rw [if_neg hn, if_neg hn]; exact h
  | register_logger logger =>
    cases logger with
    | none => exact h
    | some p =>
      cases hp : r.heap[p]? with
      | none =>
        show map_find (register_logger r (some p)).loggers name
          = (reference_step name entry (observe r (.register_logger (some p)))).map some
        rw [register_logger_dangling r p hp]
        simp only [observe, hp, reference_step]
        exact h
      | some lg =>
        show map_find (register_logger r (some p)).loggers name
          = (reference_step name entry (observe r (.register_logger (some p)))).map some
        rw [register_logger_some r p lg hp]
        simp only [observe, hp, reference_step]
        rw [map_find_assign]
        by_cases hn : get_name lg = name
        · rw [if_pos hn, if_pos hn]; rfl
        · rw [if_neg hn, if_neg hn]; exact h
  | unregister_logger n =>
    show map_find (map_erase r.loggers n) name
      = (reference_step name entry (history_event.unregistered n)).map some
    rw [map_find_erase, reference_step]
    by_cases hn : n = name
    · rw [if_pos hn, if_pos hn]; rfl
    · rw [if_neg hn, if_neg hn]; exact h
  | get_logger_names => exact h
  | set_global_level lvl => exact h
  | shutdown_all_loggers => rfl
  | construct n lvl colors => exact h
  | configure p s => exact h

theorem map_find_run (name : List Char) (ops : List registry_op) :
    ∀ (r : Registry) (entry : Option Nat), map_find r.loggers name = entry.map some →
      map_find (run_registry r ops).loggers name
        = ((history r ops).foldl (reference_step name) entry).map some := by
  induction ops with
  | nil => intro r entry h; exact h
  | cons op ops ih =>
    intro r entry h
    exact ih (registry_step r op) _ (map_find_step r op name entry h)

/-- C12: after any sequence of operations from the empty registry, `get_logger(name)` is
the lookup in the reference map: it returns the instance most recently inserted under
the name by `create_logger` or by `register_logger` of a logger of that name, if the
name has not been unregistered and no shutdown has happened since, and leaves the
registry as it is; otherwise it returns a newly allocated logger named `UNKNOWN_` +
name + `_` + eight characters, which it does not register.  `register_logger` of a null
pointer and `unregister_logger` of an absent name change nothing. -/
theorem get_logger_reference_map (gen : Nat → Nat) (ops : List registry_op)
    (name : List Char) :
    (∀ p, last_inserted name (history (empty_registry gen) ops) = some p →
      get_logger (run_registry (empty_registry gen) ops) name
        = (some p, run_registry (empty_registry gen) ops)) ∧
    (last_inserted name (history (empty_registry gen) ops) = none →
      ∃ suffix : List Char, suffix.length = 8 ∧
        (get_logger (run_registry (empty_registry gen) ops) name).1
          = some (run_registry (empty_registry gen) ops).heap.length ∧
        (get_logger (run_registry (empty_registry gen) ops) name).2.heap
          = (run_registry (empty_registry gen) ops).heap
            ++ [new ("UNKNOWN_".toList ++ name ++ "_".toList ++ suffix) level.info true] ∧
        (get_logger (run_registry (empty_registry gen) ops) name).2.loggers
          = (run_registry (empty_registry gen) ops).loggers ∧
        (∀ e ∈ (get_logger (run_registry (empty_registry gen) ops) name).2.loggers,
          e.2 ≠ some (run_registry (empty_registry gen) ops).heap.length)) ∧
    (∀ r : Registry, register_logger r none = r) ∧
    (∀ r : Registry, map_find r.loggers name = none → unregister_logger r name = r) := by
  have hfind := map_find_run name ops (empty_registry gen) none rfl
  have hinv := registry_inv_run ops _ (registry_inv_empty gen)
  refine ⟨fun p hp => ?_, fun hnone => ?_, fun r => rfl, fun r hr => ?_⟩
  · apply get_logger_present
    rw [hfind]
    unfold last_inserted at hp
    rw [hp]; rfl
  · unfold last_inserted at hnone
    rw [hnone] at hfind
    rw [get_logger_absent _ name hfind]
    refine ⟨(generate_random_suffix (run_registry (empty_registry gen) ops).gen).1,
      (generate_random_suffix_spec _).1, rfl, rfl, rfl, ?_⟩
    intro e he h
    have hv := hinv.1.1 e he
    rw [h] at hv
    exact absurd hv (Nat.lt_irrefl _)
  · unfold unregister_logger
    rw [map_erase_of_absent _ _ hr]

/-- A program that creates `net` twice, registers a logger of its own named `db`,
unregisters `db` and looks up `net`, `db` and `gone`. -/
theorem get_logger_reference_map_witness :
    (get_logger (run_registry (empty_registry (fun n => n))
        [registry_op.create_logger "net".toList level.info true,
         registry_op.create_logger "net".toList level.debug false,
         registry_op.construct "db".toList level.info true,
         registry_op.register_logger (some 2),
         registry_op.get_default_logger,
         registry_op.unregister_logger "db".toList]) "net".toList).1 = some 1 ∧
    (get_logger (run_registry (empty_registry (fun n => n))
        [registry_op.create_logger "net".toList level.info true,
         registry_op.create_logger "net".toList level.debug false,
         registry_op.construct "db".toList level.info true,
         registry_op.register_logger (some 2),
         registry_op.get_default_logger,
         registry_op.unregister_logger "db".toList]) "db".toList).1 = some 4 :=
  ⟨congrArg Prod.fst ((get_logger_reference_map (fun n => n)
      [registry_op.create_logger "net".toList level.info true,
       registry_op.create_logger "net".toList level.debug false,
       registry_op.construct "db".toList level.info true,
       registry_op.register_logger (some 2),
       registry_op.get_default_logger,
       registry_op.unregister_logger "db".toList] "net".toList).1 1 (by decide)),
   by
    obtain ⟨suffix, -, h, -⟩ := (get_logger_reference_map (fun n => n)
      [registry_op.create_logger "net".toList level.info true,
       registry_op.create_logger "net".toList level.debug false,
       registry_op.construct "db".toList level.info true,
       registry_op.register_logger (some 2),
       registry_op.get_default_logger,
       registry_op.unregister_logger "db".toList] "db".toList).2.1 (by decide)
    exact h.trans (by decide)⟩

theorem get_default_logger_present (r : Registry) (p : Nat)
    (h : r.default_logger = some p) : get_default_logger r = (some p, r) := by
  unfold get_default_logger
  rw [h]
  rfl

theorem get_default_logger_loggers (r : Registry) :
    (get_default_logger r).2.loggers = r.loggers := by
  cases hd : r.default_logger with
  | none => rw [get_default_logger_empty r hd]
  | some p => rw [get_default_logger_present r p hd]

/-- A step other than the shutdown leaves a default logger that exists in its slot. -/
theorem default_logger_step (r : Registry) (op : registry_op) (p : Nat)
    (h : r.default_logger = some p) (hop : op ≠ registry_op.shutdown_all_loggers) :
    (registry_step r op).default_logger = some p := by
  cases op with
  | get_default_logger =>
    show (get_default_logger r).2.default_logger = some p
    rw [get_default_logger_present r p h]; exact h
  | get_logger n =>
    show (get_logger r n).2.default_logger = some p
    cases hf : map_find r.loggers n with
    | some q => rw [get_logger_present r n q hf]; exact h
    | none => rw [get_logger_absent r n hf]; exact h
  | create_logger n lvl colors => exact h
  | register_logger logger =>
    show (register_logger r logger).default_logger = some p
    cases logger with
    | none => exact h
    | some q =>
      cases hq : r.heap[q]? with
      | none => rw [register_logger_dangling r q hq]; exact h
      | some lg => rw [register_logger_some r q lg hq]; exact h
  | unregister_logger n => exact h
  | get_logger_names => exact h
  | set_global_level lvl => exact h
  | shutdown_all_loggers => exact absurd rfl hop
  | construct n lvl colors => exact h
  | configure q s => exact h

theorem default_logger_run (ops : List registry_op) :
    ∀ (r : Registry) (p : Nat), r.default_logger = some p →
      registry_op.shutdown_all_loggers ∉ ops →
      (run_registry r ops).default_logger = some p := by
  induction ops with
  | nil => intro r p h _; exact h
  | cons op ops ih =>
    intro r p h hno
    exact ih (registry_step r op) p
      (default_logger_step r op p h (fun e => hno (by simp [e])))
      (fun hm => hno (List.mem_cons_of_mem _ hm))

theorem names_kept_run (ops : List registry_op) :
    ∀ r : Registry, names_kept r.heap (run_registry r ops).heap := by
  induction ops with
  | nil => intro r; exact names_kept_refl _
  | cons op ops ih =>
    intro r p lg h
    obtain ⟨lg1, h1, h2⟩ := registry_step_names_kept r op p lg h
    obtain ⟨lg2, h3, h4⟩ := ih (registry_step r op) p lg1 h1
    exact ⟨lg2, h3, h4.trans h2⟩

/-- C16: the call of `get_default_logger` made while the default slot is empty constructs
a logger named `default` with level info, colours on, auto-detection on and no file
sink; after any operations other than the shutdown, `get_default_logger` returns that
same instance, which still has its name, and constructs nothing; and
`get_default_logger` never changes the map. -/
theorem get_default_logger_stable (r : Registry) (ops : List registry_op)
    (hempty : r.default_logger = none)
    (hno : registry_op.shutdown_all_loggers ∉ ops) :
    (get_default_logger r).1 = some r.heap.length ∧
    r.heap[r.heap.length]? = none ∧
    (get_default_logger r).2.heap[r.heap.length]?
      = some { log_level := level.info, logger_name := "default".toList,
               enable_colors := true, log_file_path := [], log_file := none,
               auto_detect_colors := true } ∧
    (get_default_logger (run_registry (get_default_logger r).2 ops)).1
      = (get_default_logger r).1 ∧
    (get_default_logger (run_registry (get_default_logger r).2 ops)).2
      = run_registry (get_default_logger r).2 ops ∧
    (∃ lg, (run_registry (get_default_logger r).2 ops).heap[r.heap.length]? = some lg ∧
      get_name lg = "default".toList) ∧
    (∀ r1 : Registry, (get_default_logger r1).2.loggers = r1.loggers) := by
  have hrun := default_logger_run ops (get_default_logger r).2 r.heap.length
    (by rw [get_default_logger_empty r hempty]) hno
  have hnew : (get_default_logger r).2.heap[r.heap.length]?
      = some (new "default".toList level.info true) := by
    rw [get_default_logger_empty r hempty]
    exact heap_alloc_new _ _
  refine ⟨by rw [get_default_logger_empty r hempty], by simp, hnew, ?_, ?_, ?_,
    get_default_logger_loggers⟩
  · rw [get_default_logger_present _ _ hrun, get_default_logger_empty r hempty]
  · rw [get_default_logger_present _ _ hrun]
  · obtain ⟨lg, h1, h2⟩ := names_kept_run ops (get_default_logger r).2 _ _ hnew
    exact ⟨lg, h1, h2⟩

/-- The default logger is asked for in a registry that holds `net`; then a logger is
created, the level of all is set and a name is looked up. -/
theorem get_default_logger_stable_witness :
    (get_default_logger (run_registry
        (get_default_logger
          (create_logger (empty_registry (fun n => n)) "net".toList level.info true).2).2
        [registry_op.create_logger "x".toList level.info true,
         registry_op.set_global_level level.error,
         registry_op.get_logger "missing".toList])).1 = some 1 :=
  ((get_default_logger_stable
      (create_logger (empty_registry (fun n => n)) "net".toList level.info true).2
      [registry_op.create_logger "x".toList level.info true,
       registry_op.set_global_level level.error,
       registry_op.get_logger "missing".toList] rfl (by simp)).2.2.2.1).trans
    (get_default_logger_stable
      (create_logger (empty_registry (fun n => n)) "net".toList level.info true).2
      [registry_op.create_logger "x".toList level.info true,
       registry_op.set_global_level level.error,
       registry_op.get_logger "missing".toList] rfl (by simp)).1

theorem last_inserted_none (name : List Char) (events : List history_event)
    (h : ∀ p, history_event.inserted name p ∉ events) :
    events.foldl (reference_step name) none = none := by
  induction events with
  | nil => rfl
  | cons ev events ih =>
    have hstep : reference_step name none ev = none := by
      cases ev with
      | inserted n p =>
        by_cases hn : n = name
        · subst hn
          exact absurd (List.mem_cons_self _ _) (h p)
        · simp [reference_step, hn]
      | unregistered n => simp [reference_step]
      | shutdown => rfl
      | other => rfl
    rw [List.foldl_cons, hstep]
    exact ih (fun p hm => h p (List.mem_cons_of_mem _ hm))

/-- C20: in a state reached from the empty registry without an insertion under the
name `default` by `create_logger` or `register_logger`, whether or not
`get_default_logger` has been called, `get_logger_names` does not hold `default`, before
and after a call of `get_default_logger`; and `get_logger("default")` returns a newly
allocated logger named `UNKNOWN_default_` + eight characters, which it does not
register and which is another instance than the one `get_default_logger` returns,
whichever of the two is called first. -/
theorem default_logger_not_in_map (gen : Nat → Nat) (ops : List registry_op)
    (r : Registry) (hr : r = run_registry (empty_registry gen) ops)
    (hno : ∀ p, history_event.inserted "default".toList p
      ∉ history (empty_registry gen) ops) :
    "default".toList ∉ get_logger_names r ∧
    "default".toList ∉ get_logger_names (get_default_logger r).2 ∧
    (∃ suffix : List Char, suffix.length = 8 ∧
      (∀ c ∈ suffix, c.isAlphanum = true ∧ c ≠ Char.ofNat 0) ∧
      (get_logger (get_default_logger r).2 "default".toList).1
        = some (get_default_logger r).2.heap.length ∧
      (get_logger (get_default_logger r).2 "default".toList).2.heap
        = (get_default_logger r).2.heap
          ++ [new ("UNKNOWN_".toList ++ "default".toList ++ "_".toList ++ suffix)
                level.info true] ∧
      (get_logger (get_default_logger r).2 "default".toList).2.loggers = r.loggers ∧
      (get_logger (get_default_logger r).2 "default".toList).2.default_logger
        = (get_default_logger r).1) ∧
    (get_logger (get_default_logger r).2 "default".toList).1 ≠ (get_default_logger r).1 ∧
    (get_default_logger (get_logger r "default".toList).2).1
      ≠ (get_logger r "default".toList).1 := by
  have hfind : map_find r.loggers "default".toList = none := by
    have h := map_find_run "default".toList ops (empty_registry gen) none rfl
    rw [last_inserted_none _ _ hno] at h
    rw [hr]; exact h
  have hvalid : pointers_valid r := by
    rw [hr]; exact (registry_inv_run ops _ (registry_inv_empty gen)).1
  have hfind1 : map_find (get_default_logger r).2.loggers "default".toList = none := by
    rw [get_default_logger_loggers]; exact hfind
  have hvalid1 := pointers_valid_get_default_logger r hvalid
  have hslot : (get_default_logger r).2.default_logger = (get_default_logger r).1 := by
    cases hd : r.default_logger with
    | none => rw [get_default_logger_empty r hd]
    | some p => rw [get_default_logger_present r p hd]; exact hd
  refine ⟨(map_find_none_iff _ _).1 hfind, (map_find_none_iff _ _).1 hfind1, ?_, ?_, ?_⟩
  · rw [get_logger_absent _ _ hfind1]
    exact ⟨(generate_random_suffix (get_default_logger r).2.gen).1,
      (generate_random_suffix_spec _).1, (generate_random_suffix_spec _).2, rfl, rfl,
      get_default_logger_loggers r, hslot⟩
  · rw [get_logger_absent _ _ hfind1, ← hslot]
    intro h
    have hv := hvalid1.2
    rw [← h] at hv
    exact absurd hv (Nat.lt_irrefl _)
  · rw [get_logger_absent _ _ hfind]
    cases hd : r.default_logger with
    | none =>
      rw [get_default_logger_empty _ rfl]
      simp
    | some p =>
      rw [get_default_logger_present _ p rfl]
      intro h
      have hv := hvalid.2
      rw [hd] at hv
      have : p = r.heap.length := by simpa using h
      rw [this] at hv
      exact absurd hv (Nat.lt_irrefl _)

/-- A program that creates `net`, asks for the default logger and registers a logger of
its own named `db`. -/
theorem default_logger_not_in_map_witness :
    "default".toList ∉ get_logger_names (run_registry (empty_registry (fun n => 3 * n))
      [registry_op.create_logger "net".toList level.info true,
       registry_op.get_default_logger,
       registry_op.construct "db".toList level.debug true,
       registry_op.register_logger (some 2)]) ∧
    (get_logger (get_default_logger (run_registry (empty_registry (fun n => 3 * n))
      [registry_op.create_logger "net".toList level.info true,
       registry_op.get_default_logger,
       registry_op.construct "db".toList level.debug true,
       registry_op.register_logger (some 2)])).2 "default".toList).1
      ≠ (get_default_logger (run_registry (empty_registry (fun n => 3 * n))
      [registry_op.create_logger "net".toList level.info true,
       registry_op.get_default_logger,
       registry_op.construct "db".toList level.debug true,
       registry_op.register_logger (some 2)])).1 :=
  ⟨(default_logger_not_in_map (fun n => 3 * n)
      [registry_op.create_logger "net".toList level.info true,
       registry_op.get_default_logger,
       registry_op.construct "db".toList level.debug true,
       registry_op.register_logger (some 2)] _ rfl (by
        intro p
        simp [history, observe, registry_step, create_logger, make_shared,
          get_default_logger, register_logger, empty_registry, new, get_name])).1,
   (default_logger_not_in_map (fun n => 3 * n)
      [registry_op.create_logger "net".toList level.info true,
       registry_op.get_default_logger,
       registry_op.construct "db".toList level.debug true,
       registry_op.register_logger (some 2)] _ rfl (by
        intro p
        simp [history, observe, registry_step, create_logger, make_shared,
          get_default_logger, register_logger, empty_registry, new, get_name])).2.2.2.1⟩

/-! ## The work of an emission -/

theorem format_message_trace_events (args : List (List Char)) :
    ∀ (format_str : List Char), ∀ ev ∈ format_message_trace format_str args,
      is_format_event ev = true := by
  induction args with
  | nil => intro format_str ev h; simp [format_message_trace] at h
  | cons t args ih =>
    intro format_str ev h
    unfold format_message_trace at h
    cases hf : string_find format_str placeholder with
    | none => simp [hf] at h
    | some pos =>
      simp only [hf, List.mem_cons] at h
      rcases h with rfl | rfl | h
      · rfl
      · rfl
      · exact ih _ ev h

theorem cout_lines_append (a b : List Event) :
    cout_lines (a ++ b) = cout_lines a ++ cout_lines b := by
  induction a with
  | nil => rfl
  | cons ev a ih => cases ev <;> simp [cout_lines, ih]

theorem file_lines_append (a b : List Event) :
    file_lines (a ++ b) = file_lines a ++ file_lines b := by
  induction a with
  | nil => rfl
  | cons ev a ih => cases ev <;> simp [file_lines, ih]

theorem format_events_write_nothing (t : List Event)
    (h : ∀ ev ∈ t, is_format_event ev = true) :
    cout_lines t = [] ∧ file_lines t = [] ∧ t.filter is_lock_event = [] := by
  induction t with
  | nil => exact ⟨rfl, rfl, rfl⟩
  | cons ev t ih =>
    have hev := h ev (List.mem_cons_self _ _)
    have ht := ih (fun e he => h e (List.mem_cons_of_mem _ he))
    cases ev <;> simp [is_format_event] at hev <;>
      simp [cout_lines, file_lines, is_lock_event, ht]

/-- The writes of the trace of an emission are the writes of the emission. -/
theorem emit_trace_writes (env : Env) (lg : chromalog) (p : Nat) (lvl : level)
    (format_str : List Char) (args : List (List Char)) (out : Sinks) :
    (emit env lg lvl format_str args out).2.cout
      = out.cout ++ cout_lines (emit_trace env lg p lvl format_str args) ∧
    (emit env lg lvl format_str args out).2.files
      = out.files ++ file_lines (emit_trace env lg p lvl format_str args) := by
  by_cases hl : lvl = level.off
  · subst hl
    simp [emit, emit_trace, cout_lines, file_lines]
  · have hfmt := format_events_write_nothing _
      (format_message_trace_events args format_str)
    have htrace : emit_trace env lg p lvl format_str args
        = format_message_trace format_str args
          ++ output_log_trace env lg p lvl (format_message format_str args) := by
      cases lvl <;> first | exact absurd rfl hl | rfl
    rw [emit_eq_output_log env lg lvl format_str args out hl, htrace, cout_lines_append,
      file_lines_append, hfmt.1, hfmt.2.1]
    unfold output_log output_log_trace
    by_cases hlow : lvl.toNat < lg.log_level.toNat
    · simp [hlow, cout_lines, file_lines]
    · rw [if_neg hlow, if_neg hlow]
      cases lg.log_file <;> simp [lock_guard, cout_lines, file_lines]

/-- C11, as amended: an emission operation called with a level strictly below the
minimum of the logger does the work of `format_message` (which is the argument of the
call of `output_log`, so the arguments are rendered and the placeholders replaced as for
an accepted call) and nothing else: the mutex of the logger is not taken, no timestamp
and no thread id is computed, nothing is written to either sink and the logger is as it
was. -/
theorem filtered_emission_work (env : Env) (lg : chromalog) (p : Nat) (L : level)
    (format_str : List Char) (args : List (List Char)) (out : Sinks)
    (hL : L ≠ level.off) (hlow : L.toNat < lg.log_level.toNat) :
    emit env lg L format_str args out = (lg, out) ∧
    emit_trace env lg p L format_str args = format_message_trace format_str args ∧
    (∀ ev ∈ emit_trace env lg p L format_str args, is_format_event ev = true) ∧
    (∀ l, Event.acquire l ∉ emit_trace env lg p L format_str args) ∧
    Event.get_timestamp ∉ emit_trace env lg p L format_str args ∧
    Event.get_thread_id ∉ emit_trace env lg p L format_str args ∧
    cout_lines (emit_trace env lg p L format_str args) = [] ∧
    file_lines (emit_trace env lg p L format_str args) = [] := by
  have htrace : emit_trace env lg p L format_str args
      = format_message_trace format_str args := by
    have : emit_trace env lg p L format_str args
        = format_message_trace format_str args
          ++ output_log_trace env lg p L (format_message format_str args) := by
      cases L <;> first | exact absurd rfl hL | rfl
    rw [this]
    unfold output_log_trace
    rw [if_pos hlow, List.append_nil]
  have hev := format_message_trace_events args format_str
  have hw := format_events_write_nothing _ hev
  rw [htrace]
  refine ⟨?_, rfl, hev, fun l h => ?_, fun h => ?_, fun h => ?_, hw.1, hw.2.1⟩
  · rw [emit_eq_output_log env lg L format_str args out hL]
    exact output_log_below env lg L _ out hlow
  · exact absurd (hev _ h) (by simp [is_format_event])
  · exact absurd (hev _ h) (by simp [is_format_event])
  · exact absurd (hev _ h) (by simp [is_format_event])

/-- A debug message with one argument on a logger of minimum level info. -/
theorem filtered_emission_work_witness :
    emit_trace ⟨true, "t".toList, "1".toList, fun _ => true⟩
        (new "n".toList level.info true) 0 level.debug "x \x7b\x7d".toList ["a".toList]
      = format_message_trace "x \x7b\x7d".toList ["a".toList] ∧
    cout_lines (emit_trace ⟨true, "t".toList, "1".toList, fun _ => true⟩
        (new "n".toList level.info true) 0 level.debug "x \x7b\x7d".toList ["a".toList])
      = [] :=
  ⟨(filtered_emission_work ⟨true, "t".toList, "1".toList, fun _ => true⟩
      (new "n".toList level.info true) 0 level.debug "x \x7b\x7d".toList ["a".toList]
      ⟨[], []⟩ (by decide) (by decide)).2.1,
   (filtered_emission_work ⟨true, "t".toList, "1".toList, fun _ => true⟩
      (new "n".toList level.info true) 0 level.debug "x \x7b\x7d".toList ["a".toList]
      ⟨[], []⟩ (by decide) (by decide)).2.2.2.2.2.2.1⟩

/-- C11 as stated fails: a debug message on a logger of minimum level info is formatted
before the level is compared: its argument is rendered and its placeholder replaced,
although nothing is written. -/
theorem filtered_emission_formats :
    level.debug.toNat < (new "n".toList level.info true).log_level.toNat ∧
    emit_trace ⟨true, "t".toList, "1".toList, fun _ => true⟩
        (new "n".toList level.info true) 0 level.debug "x \x7b\x7d".toList ["a".toList]
      = [Event.to_string_safe "a".toList, Event.replace 2] ∧
    (emit ⟨true, "t".toList, "1".toList, fun _ => true⟩
        (new "n".toList level.info true) level.debug "x \x7b\x7d".toList ["a".toList]
        ⟨[], []⟩).2 = ⟨[], []⟩ := by
  decide

/-! ## The order of the locks -/

theorem at_some_point_cons (cond : List Lock → Bool) (held : List Lock) (ev : Event)
    (rest : List Event) :
    at_some_point cond held (ev :: rest)
      = (cond held || at_some_point cond (held_after held ev) rest) := rfl

theorem registry_after_logger_cons (held : List Lock) (ev : Event) (rest : List Event) :
    registry_after_logger held (ev :: rest)
      = ((ev == Event.acquire Lock.registry_mutex && held.any is_log_mutex)
          || registry_after_logger (held_after held ev) rest) := rfl

theorem at_some_point_start (cond : List Lock → Bool) (held : List Lock)
    (t : List Event) (h : cond held = true) : at_some_point cond held t = true := by
  cases t with
  | nil => exact h
  | cons ev rest => rw [at_some_point_cons, h]; rfl

theorem two_loggers_one_more (held : List Lock) (p : Nat)
    (h : held.any is_log_mutex = false) :
    two_loggers (Lock.log_mutex p :: held) = false := by
  have hall : ∀ a ∈ held, is_log_mutex a = false := by
    intro a ha
    by_contra hne
    have : held.any is_log_mutex = true :=
      List.any_eq_true.2 ⟨a, ha, by simpa using hne⟩
    rw [h] at this
    cases this
  unfold two_loggers
  rw [Bool.eq_false_iff]
  intro hany
  obtain ⟨a, ha, hinner⟩ := List.any_eq_true.1 hany
  obtain ⟨b, hb, hab⟩ := List.any_eq_true.1 hinner
  simp only [Bool.and_eq_true, bne_iff_ne, ne_eq] at hab
  rcases List.mem_cons.1 ha with rfl | ha
  · rcases List.mem_cons.1 hb with rfl | hb
    · exact hab.2 rfl
    · rw [hall b hb] at hab
      exact absurd hab.1.2 (by simp)
  · rw [hall a ha] at hab
    exact absurd hab.1.1 (by simp)

theorem two_loggers_none (held : List Lock) (h : held.any is_log_mutex = false) :
    two_loggers held = false := by
  unfold two_loggers
  rw [Bool.eq_false_iff]
  intro hany
  obtain ⟨a, ha, hinner⟩ := List.any_eq_true.1 hany
  obtain ⟨b, -, hab⟩ := List.any_eq_true.1 hinner
  simp only [Bool.and_eq_true] at hab
  have : held.any is_log_mutex = true := List.any_eq_true.2 ⟨a, ha, hab.1.1⟩
  rw [h] at this
  cases this

/-- A sequence of visits, from a point where no mutex of a logger is held, never holds
the mutexes of two loggers, and ends with the mutexes it started with. -/
theorem two_loggers_visit_all (qs : List (Option Nat)) (held : List Lock)
    (rest : List Event) (h : held.any is_log_mutex = false) :
    at_some_point two_loggers held (visit_all qs ++ rest)
      = at_some_point two_loggers held rest := by
  induction qs with
  | nil => rfl
  | cons q qs ih =>
    cases q with
    | none => exact ih
    | some p =>
      show at_some_point two_loggers held
        (Event.acquire (Lock.log_mutex p) :: Event.release (Lock.log_mutex p)
          :: (visit_all qs ++ rest)) = _
      rw [at_some_point_cons, at_some_point_cons, two_loggers_none held h]
      show (false || (two_loggers (Lock.log_mutex p :: held)
        || at_some_point two_loggers ((Lock.log_mutex p :: held).erase (Lock.log_mutex p))
            (visit_all qs ++ rest))) = _
      rw [two_loggers_one_more held p h, List.erase_cons_head, ih]
      rfl

/-- A sequence of visits, from a point where no mutex of a logger is held, takes no
registry mutex. -/
theorem registry_after_logger_visit_all (qs : List (Option Nat)) (held : List Lock)
    (rest : List Event) :
    registry_after_logger held (visit_all qs ++ rest) = registry_after_logger held rest := by
  induction qs with
  | nil => rfl
  | cons q qs ih =>
    cases q with
    | none => exact ih
    | some p =>
      show registry_after_logger held
        (Event.acquire (Lock.log_mutex p) :: Event.release (Lock.log_mutex p)
          :: (visit_all qs ++ rest)) = _
      have h1 : (Event.acquire (Lock.log_mutex p) == Event.acquire Lock.registry_mutex)
          = false := by simp
      have h2 : (Event.release (Lock.log_mutex p) == Event.acquire Lock.registry_mutex)
          = false := by simp
      rw [registry_after_logger_cons, registry_after_logger_cons, h1, h2]
      show (false && held.any is_log_mutex
        || (false && (Lock.log_mutex p :: held).any is_log_mutex
          || registry_after_logger ((Lock.log_mutex p :: held).erase (Lock.log_mutex p))
              (visit_all qs ++ rest))) = _
      rw [List.erase_cons_head, ih]
      rfl

/-- Under the registry mutex alone, a guarded sequence of visits never holds the
mutexes of two loggers and takes the registry mutex while no logger is locked. -/
theorem registry_guard_visits (qs : List (Option Nat)) :
    at_some_point two_loggers [] (lock_guard Lock.registry_mutex (visit_all qs)) = false ∧
    registry_after_logger [] (lock_guard Lock.registry_mutex (visit_all qs)) = false := by
  constructor
  · show at_some_point two_loggers []
      (Event.acquire Lock.registry_mutex :: (visit_all qs ++ [Event.release Lock.registry_mutex]))
        = false
    rw [at_some_point_cons]
    show (two_loggers [] || at_some_point two_loggers [Lock.registry_mutex]
      (visit_all qs ++ [Event.release Lock.registry_mutex])) = false
    rw [two_loggers_visit_all qs _ _ (by decide)]
    decide
  · show registry_after_logger []
      (Event.acquire Lock.registry_mutex :: (visit_all qs ++ [Event.release Lock.registry_mutex]))
        = false
    rw [registry_after_logger_cons]
    show ((Event.acquire Lock.registry_mutex == Event.acquire Lock.registry_mutex
        && ([] : List Lock).any is_log_mutex)
      || registry_after_logger [Lock.registry_mutex]
          (visit_all qs ++ [Event.release Lock.registry_mutex])) = false
    rw [registry_after_logger_visit_all]
    decide

/-- Visits through null pointers only are no visits. -/
theorem visit_all_null (qs : List (Option Nat)) (h : ∀ q ∈ qs, q = none) :
    visit_all qs = [] := by
  induction qs with
  | nil => rfl
  | cons q qs ih =>
    have hq := h q (List.mem_cons_self _ _)
    subst hq
    exact ih (fun q hq => h q (List.mem_cons_of_mem _ hq))

/-- The mutex events of an emission: none when the level is below the minimum, and
otherwise the mutex of the logger, taken and given back. -/
theorem emit_trace_locks (env : Env) (lg : chromalog) (p : Nat) (lvl : level)
    (format_str : List Char) (args : List (List Char)) :
    (emit_trace env lg p lvl format_str args).filter is_lock_event = [] ∨
    (emit_trace env lg p lvl format_str args).filter is_lock_event
      = lock_guard (Lock.log_mutex p) [] := by
  by_cases hl : lvl = level.off
  · subst hl; exact Or.inl rfl
  · have htrace : emit_trace env lg p lvl format_str args
        = format_message_trace format_str args
          ++ output_log_trace env lg p lvl (format_message format_str args) := by
      cases lvl <;> first | exact absurd rfl hl | rfl
    have hfmt := (format_events_write_nothing _
      (format_message_trace_events args format_str)).2.2
    rw [htrace, List.filter_append, hfmt, List.nil_append]
    unfold output_log_trace
    by_cases hlow : lvl.toNat < lg.log_level.toNat
    · rw [if_pos hlow]; exact Or.inl rfl
    · rw [if_neg hlow]
      right
      cases lg.log_file <;> simp [lock_guard, is_lock_event]

theorem held_after_no_registry (held : List Lock) (ev : Event)
    (hev : ev ≠ Event.acquire Lock.registry_mutex) (h : Lock.registry_mutex ∉ held) :
    Lock.registry_mutex ∉ held_after held ev := by
  cases ev with
  | acquire l =>
    intro hm
    rcases List.mem_cons.1 hm with hl | hl
    · exact hev (by rw [hl])
    · exact h hl
  | release l => exact fun hm => h (List.mem_of_mem_erase hm)
  | to_string_safe text => exact h
  | replace pos => exact h
  | get_timestamp => exact h
  | get_thread_id => exact h
  | cout line => exact h
  | log_file path line => exact h

/-- A trace that never takes the registry mutex never holds it with the mutex of a
logger, and never takes it after one. -/
theorem no_registry_trace (t : List Event)
    (ht : ∀ ev ∈ t, ev ≠ Event.acquire Lock.registry_mutex) :
    ∀ held : List Lock, Lock.registry_mutex ∉ held →
      at_some_point registry_and_logger held t = false ∧
      registry_after_logger held t = false := by
  induction t with
  | nil =>
    intro held h
    refine ⟨?_, rfl⟩
    show registry_and_logger held = false
    unfold registry_and_logger
    have : held.contains Lock.registry_mutex = false := by simpa using h
    rw [this]; rfl
  | cons ev t ih =>
    intro held h
    have hev := ht ev (List.mem_cons_self _ _)
    obtain ⟨h1, h2⟩ := ih (fun e he => ht e (List.mem_cons_of_mem _ he))
      (held_after held ev) (held_after_no_registry held ev hev h)
    have hc : held.contains Lock.registry_mutex = false := by simpa using h
    have hb : (ev == Event.acquire Lock.registry_mutex) = false := by simpa using hev
    constructor
    · rw [at_some_point_cons, h1]
      unfold registry_and_logger
      rw [hc]; rfl
    · rw [registry_after_logger_cons, h2, hb]; rfl

theorem lock_guard_logger_no_registry (p : Nat) :
    ∀ ev ∈ lock_guard (Lock.log_mutex p) [], ev ≠ Event.acquire Lock.registry_mutex := by
  intro ev hev
  have hmem : ev = Event.acquire (Lock.log_mutex p) ∨ ev = Event.release (Lock.log_mutex p) := by
    simpa [lock_guard] using hev
  rcases hmem with rfl | rfl <;> simp

theorem lock_guard_two_no_registry (dst src : Nat) :
    ∀ ev ∈ lock_guard (Lock.log_mutex dst) (lock_guard (Lock.log_mutex src) []),
      ev ≠ Event.acquire Lock.registry_mutex := by
  intro ev hev
  have hmem : ev = Event.acquire (Lock.log_mutex dst) ∨ ev = Event.acquire (Lock.log_mutex src)
      ∨ ev = Event.release (Lock.log_mutex src) ∨ ev = Event.release (Lock.log_mutex dst) := by
    simpa [lock_guard] using hev
  rcases hmem with rfl | rfl | rfl | rfl <;> simp

theorem lock_events_move_assign (last_ref : Nat → Bool) (r : Registry) (dst src : Nat) :
    lock_events last_ref r (public_op.move_assign dst src)
      = if dst ≠ src then lock_guard (Lock.log_mutex dst) (lock_guard (Lock.log_mutex src) [])
        else [] := rfl

theorem lock_events_log (last_ref : Nat → Bool) (r : Registry) (env : Env) (p : Nat)
    (lvl : level) (format_str : List Char) (args : List (List Char)) :
    lock_events last_ref r (public_op.log env p lvl format_str args)
      = match r.heap[p]? with
        | some lg => (emit_trace env lg p lvl format_str args).filter is_lock_event
        | none => [] := rfl

/-- The members of a logger that are not functions of the registry never take the
registry mutex. -/
theorem logger_ops_no_registry (last_ref : Nat → Bool) (r : Registry) (op : public_op)
    (hop : ∀ rop, op ≠ public_op.registry rop) :
    ∀ ev ∈ lock_events last_ref r op, ev ≠ Event.acquire Lock.registry_mutex := by
  cases op with
  | registry rop => exact absurd rfl (hop rop)
  | destroy p => exact lock_guard_logger_no_registry p
  | move_construct dst src => exact lock_guard_two_no_registry dst src
  | move_assign dst src =>
    intro ev hev
    rw [lock_events_move_assign] at hev
    by_cases hne : dst ≠ src
    · rw [if_pos hne] at hev
      exact lock_guard_two_no_registry dst src ev hev
    · rw [if_neg hne] at hev
      cases hev
  | get_level p => exact lock_guard_logger_no_registry p
  | get_name p => exact lock_guard_logger_no_registry p
  | log env p lvl format_str args =>
    intro ev hev
    rw [lock_events_log] at hev
    cases hp : r.heap[p]? with
    | none => simp [hp] at hev
    | some lg =>
      simp only [hp] at hev
      rcases emit_trace_locks env lg p lvl format_str args with h | h
      · rw [h] at hev; cases hev
      · rw [h] at hev; exact lock_guard_logger_no_registry p ev hev

theorem two_loggers_single (p : Nat) :
    at_some_point two_loggers [] (lock_guard (Lock.log_mutex p) []) = false := by
  have h := two_loggers_visit_all [some p] [] [] rfl
  simp only [visit_all, List.append_nil] at h
  rw [h]
  rfl

theorem dropped_some (last_ref : Nat → Bool) (x : Option Nat) (q : Nat)
    (h : dropped last_ref x = some q) : x = some q ∧ last_ref q = true := by
  cases x with
  | none => simp [dropped] at h
  | some p =>
    have hd : dropped last_ref (some p) = if last_ref p then some p else none := rfl
    rw [hd] at h
    by_cases hl : last_ref p = true
    · rw [if_pos hl] at h
      have : p = q := by simpa using h
      subst this
      exact ⟨rfl, hl⟩
    · rw [if_neg hl] at h
      cases h

theorem registry_guard_alone :
    at_some_point registry_and_logger [] (lock_guard Lock.registry_mutex (visit_all [none]))
      = false := by
  decide

/-- The mutex events of a step on the registry: none, or a sequence of visits under the
registry mutex, or one visit of a logger. -/
theorem registry_lock_events_shape (last_ref : Nat → Bool) (r : Registry)
    (rop : registry_op) :
    registry_lock_events last_ref r rop = [] ∨
    (∃ qs, registry_lock_events last_ref r rop
      = lock_guard Lock.registry_mutex (visit_all qs)) ∨
    (∃ p, registry_lock_events last_ref r rop = lock_guard (Lock.log_mutex p) []) := by
  cases rop with
  | get_default_logger => exact Or.inr (Or.inl ⟨[], rfl⟩)
  | get_logger name => exact Or.inr (Or.inl ⟨[], rfl⟩)
  | create_logger name lvl colors => exact Or.inr (Or.inl ⟨_, rfl⟩)
  | register_logger logger =>
    cases logger with
    | none => exact Or.inl rfl
    | some p => exact Or.inr (Or.inl ⟨_, rfl⟩)
  | unregister_logger name => exact Or.inr (Or.inl ⟨_, rfl⟩)
  | get_logger_names => exact Or.inr (Or.inl ⟨[], rfl⟩)
  | set_global_level lvl => exact Or.inr (Or.inl ⟨_, rfl⟩)
  | shutdown_all_loggers => exact Or.inr (Or.inl ⟨_, rfl⟩)
  | construct name lvl colors => exact Or.inl rfl
  | configure p s => exact Or.inr (Or.inr ⟨p, rfl⟩)

theorem two_loggers_same (p : Nat) :
    at_some_point two_loggers []
      (lock_guard (Lock.log_mutex p) (lock_guard (Lock.log_mutex p) [])) = false := by
  simp [lock_guard, at_some_point, held_after, two_loggers, is_log_mutex]

/-- No operation other than a move holds the mutexes of two loggers, and no operation
takes the registry mutex while the mutex of a logger is held. -/
theorem lock_events_order (last_ref : Nat → Bool) (r : Registry) (op : public_op) :
    (at_some_point two_loggers [] (lock_events last_ref r op) = true →
      ∃ dst src, dst ≠ src ∧
        (op = public_op.move_construct dst src ∨ op = public_op.move_assign dst src)) ∧
    registry_after_logger [] (lock_events last_ref r op) = false := by
  have hsingle : ∀ p : Nat,
      registry_after_logger [] (lock_guard (Lock.log_mutex p) []) = false := fun p =>
    (no_registry_trace _ (lock_guard_logger_no_registry p) [] (by simp)).2
  cases op with
  | registry rop =>
    show (at_some_point two_loggers [] (registry_lock_events last_ref r rop) = true → _) ∧
      registry_after_logger [] (registry_lock_events last_ref r rop) = false
    rcases registry_lock_events_shape last_ref r rop with h | ⟨qs, h⟩ | ⟨p, h⟩
    · rw [h]
      refine ⟨fun hc => ?_, rfl⟩
      cases hc
    · rw [h]
      refine ⟨fun hc => ?_, (registry_guard_visits qs).2⟩
      rw [(registry_guard_visits qs).1] at hc
      cases hc
    · rw [h]
      refine ⟨fun hc => ?_, hsingle p⟩
      rw [two_loggers_single p] at hc
      cases hc
  | destroy p =>
    refine ⟨fun hc => ?_, hsingle p⟩
    rw [show lock_events last_ref r (public_op.destroy p)
      = lock_guard (Lock.log_mutex p) [] from rfl, two_loggers_single p] at hc
    cases hc
  | move_construct dst src =>
    refine ⟨fun hc => ?_, (no_registry_trace _
      (logger_ops_no_registry last_ref r _ (fun rop h => by cases h)) [] (by simp)).2⟩
    by_cases hne : dst = src
    · subst hne
      rw [show lock_events last_ref r (public_op.move_construct dst dst)
        = lock_guard (Lock.log_mutex dst) (lock_guard (Lock.log_mutex dst) []) from rfl,
        two_loggers_same] at hc
      cases hc
    · exact ⟨dst, src, hne, Or.inl rfl⟩
  | move_assign dst src =>
    refine ⟨fun hc => ?_, (no_registry_trace _
      (logger_ops_no_registry last_ref r _ (fun rop h => by cases h)) [] (by simp)).2⟩
    by_cases hne : dst = src
    · rw [lock_events_move_assign, if_neg (by simpa using hne)] at hc
      cases hc
    · exact ⟨dst, src, hne, Or.inr rfl⟩
  | get_level p =>
    refine ⟨fun hc => ?_, hsingle p⟩
    rw [show lock_events last_ref r (public_op.get_level p)
      = lock_guard (Lock.log_mutex p) [] from rfl, two_loggers_single p] at hc
    cases hc
  | get_name p =>
    refine ⟨fun hc => ?_, hsingle p⟩
    rw [show lock_events last_ref r (public_op.get_name p)
      = lock_guard (Lock.log_mutex p) [] from rfl, two_loggers_single p] at hc
    cases hc
  | log env p lvl format_str args =>
    refine ⟨fun hc => ?_, (no_registry_trace _
      (logger_ops_no_registry last_ref r _ (fun rop h => by cases h)) [] (by simp)).2⟩
    rw [lock_events_log] at hc
    cases hp : r.heap[p]? with
    | none => simp [hp, at_some_point, two_loggers] at hc
    | some lg =>
      simp only [hp] at hc
      rcases emit_trace_locks env lg p lvl format_str args with h | h
      · rw [h] at hc; cases hc
      · rw [h, two_loggers_single p] at hc; cases hc

/-- C17, as amended: in the execution of a public operation the registry mutex and the
mutex of a logger are held at the same time only inside `set_global_level`,
`shutdown_all_loggers`, `register_logger` of a logger that is not null (which calls
`get_name()` under the registry mutex), and `create_logger` or `unregister_logger` when
the entry they replace or remove held the last reference to its logger, whose destructor
then runs under the registry mutex; the mutexes of two different loggers are held at the
same time only in the move constructor and the move assignment; and the registry mutex
is never taken while the mutex of a logger is held. -/
theorem lock_discipline (last_ref : Nat → Bool) (r : Registry) (op : public_op) :
    (at_some_point registry_and_logger [] (lock_events last_ref r op) = true →
      (∃ lvl, op = public_op.registry (registry_op.set_global_level lvl)) ∨
      op = public_op.registry registry_op.shutdown_all_loggers ∨
      (∃ q, op = public_op.registry (registry_op.register_logger (some q))) ∨
      (∃ name lvl colors q,
        op = public_op.registry (registry_op.create_logger name lvl colors) ∧
        stored_pointer r name = some q ∧ last_ref q = true) ∨
      (∃ name q, op = public_op.registry (registry_op.unregister_logger name) ∧
        stored_pointer r name = some q ∧ last_ref q = true)) ∧
    (at_some_point two_loggers [] (lock_events last_ref r op) = true →
      ∃ dst src, dst ≠ src ∧
        (op = public_op.move_construct dst src ∨ op = public_op.move_assign dst src)) ∧
    registry_after_logger [] (lock_events last_ref r op) = false := by
  refine ⟨fun hc => ?_, lock_events_order last_ref r op⟩
  have hnone : ∀ t : List Event, (∀ ev ∈ t, ev ≠ Event.acquire Lock.registry_mutex) →
      at_some_point registry_and_logger [] t = false := fun t ht =>
    (no_registry_trace t ht [] (by simp)).1
  have hguard : at_some_point registry_and_logger [] (lock_guard Lock.registry_mutex [])
      = false := by decide
  cases op with
  | registry rop =>
    cases rop with
    | get_default_logger =>
      rw [show lock_events last_ref r (.registry .get_default_logger)
        = lock_guard Lock.registry_mutex [] from rfl, hguard] at hc
      cases hc
    | get_logger name =>
      rw [show lock_events last_ref r (.registry (.get_logger name))
        = lock_guard Lock.registry_mutex [] from rfl, hguard] at hc
      cases hc
    | create_logger name lvl colors =>
      cases hd : dropped last_ref (stored_pointer r name) with
      | none =>
        rw [show lock_events last_ref r (.registry (.create_logger name lvl colors))
          = lock_guard Lock.registry_mutex
              (visit_all [dropped last_ref (stored_pointer r name)]) from rfl,
          hd, registry_guard_alone] at hc
        cases hc
      | some q =>
        obtain ⟨h1, h2⟩ := dropped_some last_ref _ q hd
        exact Or.inr (Or.inr (Or.inr (Or.inl ⟨name, lvl, colors, q, rfl, h1, h2⟩)))
    | register_logger logger =>
      cases logger with
      | none => cases hc
      | some q => exact Or.inr (Or.inr (Or.inl ⟨q, rfl⟩))
    | unregister_logger name =>
      cases hd : dropped last_ref (stored_pointer r name) with
      | none =>
        rw [show lock_events last_ref r (.registry (.unregister_logger name))
          = lock_guard Lock.registry_mutex
              (visit_all [dropped last_ref (stored_pointer r name)]) from rfl,
          hd, registry_guard_alone] at hc
        cases hc
      | some q =>
        obtain ⟨h1, h2⟩ := dropped_some last_ref _ q hd
        exact Or.inr (Or.inr (Or.inr (Or.inr ⟨name, q, rfl, h1, h2⟩)))
    | get_logger_names =>
      rw [show lock_events last_ref r (.registry .get_logger_names)
        = lock_guard Lock.registry_mutex [] from rfl, hguard] at hc
      cases hc
    | set_global_level lvl => exact Or.inl ⟨lvl, rfl⟩
    | shutdown_all_loggers => exact Or.inr (Or.inl rfl)
    | construct name lvl colors => cases hc
    | configure p s =>
      rw [show lock_events last_ref r (.registry (.configure p s))
        = lock_guard (Lock.log_mutex p) [] from rfl,
        hnone _ (lock_guard_logger_no_registry p)] at hc
      cases hc
  | destroy p =>
    rw [hnone _ (logger_ops_no_registry last_ref r _ (fun rop h => by cases h))] at hc
    cases hc
  | move_construct dst src =>
    rw [hnone _ (logger_ops_no_registry last_ref r _ (fun rop h => by cases h))] at hc
    cases hc
  | move_assign dst src =>
    rw [hnone _ (logger_ops_no_registry last_ref r _ (fun rop h => by cases h))] at hc
    cases hc
  | get_level p =>
    rw [hnone _ (logger_ops_no_registry last_ref r _ (fun rop h => by cases h))] at hc
    cases hc
  | get_name p =>
    rw [hnone _ (logger_ops_no_registry last_ref r _ (fun rop h => by cases h))] at hc
    cases hc
  | log env p lvl format_str args =>
    rw [hnone _ (logger_ops_no_registry last_ref r _ (fun rop h => by cases h))] at hc
    cases hc

/-- In a registry that holds `net` and `db`: the trace of `set_global_level`, and the
trace of a `create_logger` that replaces the last reference to the old `net`. -/
theorem lock_discipline_witness :
    ((∃ lvl, public_op.registry (registry_op.set_global_level level.error)
        = public_op.registry (registry_op.set_global_level lvl)) ∨
      public_op.registry (registry_op.set_global_level level.error)
        = public_op.registry registry_op.shutdown_all_loggers ∨
      (∃ q, public_op.registry (registry_op.set_global_level level.error)
        = public_op.registry (registry_op.register_logger (some q))) ∨
      (∃ name lvl colors q,
        public_op.registry (registry_op.set_global_level level.error)
          = public_op.registry (registry_op.create_logger name lvl colors) ∧
        stored_pointer demo_registry name = some q ∧ (fun _ => true) q = true) ∨
      (∃ name q, public_op.registry (registry_op.set_global_level level.error)
          = public_op.registry (registry_op.unregister_logger name) ∧
        stored_pointer demo_registry name = some q ∧ (fun _ => true) q = true)) ∧
    registry_after_logger [] (lock_events (fun _ => true) demo_registry
      (public_op.registry (registry_op.create_logger "net".toList level.info true)))
        = false :=
  ⟨(lock_discipline (fun _ => true) demo_registry
      (public_op.registry (registry_op.set_global_level level.error))).1 (by decide),
   (lock_discipline (fun _ => true) demo_registry
      (public_op.registry (registry_op.create_logger "net".toList level.info true))).2.2⟩

/-- C17 as stated fails: `register_logger` reads the name of the logger, under the mutex
of the logger, while it holds the registry mutex; and the move assignment holds the
mutexes of both of its loggers. -/
theorem lock_discipline_broken :
    lock_events (fun _ => false) demo_registry
        (public_op.registry (registry_op.register_logger (some 0)))
      = [Event.acquire Lock.registry_mutex, Event.acquire (Lock.log_mutex 0),
         Event.release (Lock.log_mutex 0), Event.release Lock.registry_mutex] ∧
    at_some_point registry_and_logger [] (lock_events (fun _ => false) demo_registry
      (public_op.registry (registry_op.register_logger (some 0)))) = true ∧
    lock_events (fun _ => false) demo_registry (public_op.move_assign 0 1)
      = [Event.acquire (Lock.log_mutex 0), Event.acquire (Lock.log_mutex 1),
         Event.release (Lock.log_mutex 1), Event.release (Lock.log_mutex 0)] ∧
    at_some_point two_loggers [] (lock_events (fun _ => false) demo_registry
      (public_op.move_assign 0 1)) = true := by
  decide

/-! ## Programs with moves -/

theorem registry_step_length (r : Registry) (op : registry_op) :
    r.heap.length ≤ (registry_step r op).heap.length :=
  names_kept_length _ _ (registry_step_names_kept r op)

theorem keys_allocated_of_subset (r r1 : Registry)
    (hlen : r.heap.length ≤ r1.heap.length)
    (hsub : ∀ e ∈ r1.loggers, e ∈ r.loggers) (h : keys_allocated r) :
    keys_allocated r1 := by
  intro e he
  obtain ⟨p, h1, h2⟩ := h e (hsub e he)
  exact ⟨p, h1, Nat.lt_of_lt_of_le h2 hlen⟩

theorem get_logger_loggers (r : Registry) (name : List Char) :
    (get_logger r name).2.loggers = r.loggers := by
  cases hf : map_find r.loggers name with
  | some q => rw [get_logger_present r name q hf]
  | none => rw [get_logger_absent r name hf]

theorem keys_allocated_step (r : Registry) (op : registry_op) (h : keys_allocated r) :
    keys_allocated (registry_step r op) := by
  have hlen := registry_step_length r op
  cases op with
  | get_default_logger =>
    exact keys_allocated_of_subset r _ hlen
      (fun e he => (get_default_logger_loggers r) ▸ he) h
  | get_logger name =>
    exact keys_allocated_of_subset r _ hlen (fun e he => (get_logger_loggers r name) ▸ he) h
  | create_logger name lvl colors =>
    intro e he
    rcases List.mem_cons.1 he with rfl | he
    · refine ⟨r.heap.length, rfl, ?_⟩
      show r.heap.length < (r.heap ++ [_]).length
      simp
    · obtain ⟨p, h1, h2⟩ := h e (map_erase_subset _ _ e he)
      exact ⟨p, h1, Nat.lt_of_lt_of_le h2 hlen⟩
  | register_logger logger =>
    cases logger with
    | none => exact h
    | some p =>
      cases hp : r.heap[p]? with
      | none =>
        show keys_allocated (register_logger r (some p))
        rw [register_logger_dangling r p hp]; exact h
      | some lg =>
        show keys_allocated (register_logger r (some p))
        rw [register_logger_some r p lg hp]
        intro e he
        rcases List.mem_cons.1 he with rfl | he
        · refine ⟨p, rfl, ?_⟩
          show p < r.heap.length
          by_contra hge
          rw [List.getElem?_eq_none (by omega)] at hp
          cases hp
        · exact h e (map_erase_subset _ _ e he)
  | unregister_logger name =>
    exact keys_allocated_of_subset r _ hlen (map_erase_subset _ _) h
  | get_logger_names => exact h
  | set_global_level lvl => exact keys_allocated_of_subset r _ hlen (fun e he => he) h
  | shutdown_all_loggers =>
    intro e he
    simp [registry_step, shutdown_all_loggers] at he
  | construct name lvl colors => exact keys_allocated_of_subset r _ hlen (fun e he => he) h
  | configure p s => exact keys_allocated_of_subset r _ hlen (fun e he => he) h

theorem names_nodup_step (r : Registry) (op : registry_op)
    (h : (get_logger_names r).Nodup) : (get_logger_names (registry_step r op)).Nodup := by
  unfold get_logger_names at h ⊢
  rcases registry_step_names r op with h1 | ⟨name, v, h1⟩ | ⟨name, h1⟩ | h1
  · unfold get_logger_names at h1
    rw [h1]; exact h
  · rw [h1]; exact map_assign_keys_nodup _ _ _ h
  · rw [h1]; exact map_erase_keys_nodup _ _ h
  · rw [h1]; exact List.nodup_nil

/-- A move changes neither the map nor the default slot, and removes no logger. -/
theorem move_step_frame (r : Registry) (op : program_op)
    (hop : ∀ rop, op ≠ program_op.registry rop) :
    (program_step r op).loggers = r.loggers ∧
    (program_step r op).default_logger = r.default_logger ∧
    r.heap.length ≤ (program_step r op).heap.length := by
  cases op with
  | registry rop => exact absurd rfl (hop rop)
  | move_construct src =>
    cases hs : r.heap[src]? with
    | none => simp [program_step, hs]
    | some other => simp [program_step, hs]
  | move_assign dst src =>
    by_cases hne : dst = src
    · simp [program_step, hne]
    · cases hd : r.heap[dst]? with
      | none => simp [program_step, hne, hd]
      | some obj =>
        cases hs : r.heap[src]? with
        | none => simp [program_step, hne, hd, hs]
        | some other => simp [program_step, hne, hd, hs]

/-- A move leaves every logger other than its two objects as it was. -/
theorem move_step_get (r : Registry) (p : Nat) (lg : chromalog) (hp : r.heap[p]? = some lg) :
    (∀ src, p ≠ src → (program_step r (program_op.move_construct src)).heap[p]? = some lg) ∧
    (∀ dst src, (dst = src ∨ (p ≠ dst ∧ p ≠ src)) →
      (program_step r (program_op.move_assign dst src)).heap[p]? = some lg) := by
  have hlt : p < r.heap.length := by
    by_contra hge
    rw [List.getElem?_eq_none (by omega)] at hp
    cases hp
  constructor
  · intro src hne
    cases hs : r.heap[src]? with
    | none => simpa [program_step, hs] using hp
    | some other =>
      have hstep : (program_step r (program_op.move_construct src)).heap
          = r.heap.set src (move_construct other).2 ++ [(move_construct other).1] := by
        simp [program_step, hs]
      rw [hstep, List.getElem?_append_left (by simpa using hlt),
        List.getElem?_set_ne (fun e => hne e.symm)]
      exact hp
  · intro dst src hcond
    by_cases hds : dst = src
    · simpa [program_step, hds] using hp
    · rcases hcond with hc | ⟨h1, h2⟩
      · exact absurd hc hds
      · cases hd : r.heap[dst]? with
        | none => simpa [program_step, hds, hd] using hp
        | some obj =>
          cases hs : r.heap[src]? with
          | none => simpa [program_step, hds, hd, hs] using hp
          | some other =>
            have hstep : (program_step r (program_op.move_assign dst src)).heap
                = (r.heap.set src (move_assign obj other).2).set dst
                    (move_assign obj other).1 := by
              simp [program_step, hds, hd, hs]
            rw [hstep, List.getElem?_set_ne (fun e => h1 e.symm),
              List.getElem?_set_ne (fun e => h2 e.symm)]
            exact hp

theorem not_registered (r : Registry) (p : Nat) (h : registered r p = false)
    (e : List Char × Option Nat) (he : e ∈ r.loggers) : e.2 ≠ some p := by
  intro hp
  have : registered r p = true := by
    unfold registered
    exact List.any_eq_true.2 ⟨e, he, by simp [hp]⟩
  rw [h] at this
  cases this

/-- What every step of a program keeps, moves included: the pointers of the map are not
null and refer to allocated loggers, and no key occurs twice. -/
theorem program_step_keys (r : Registry) (op : program_op)
    (h : keys_allocated r ∧ (get_logger_names r).Nodup) :
    keys_allocated (program_step r op) ∧ (get_logger_names (program_step r op)).Nodup := by
  cases op with
  | registry rop => exact ⟨keys_allocated_step r rop h.1, names_nodup_step r rop h.2⟩
  | move_construct src =>
    obtain ⟨h1, -, h3⟩ := move_step_frame r (program_op.move_construct src)
      (fun rop e => by cases e)
    refine ⟨keys_allocated_of_subset r _ h3 (fun e he => h1 ▸ he) h.1, ?_⟩
    unfold get_logger_names
    rw [h1]; exact h.2
  | move_assign dst src =>
    obtain ⟨h1, -, h3⟩ := move_step_frame r (program_op.move_assign dst src)
      (fun rop e => by cases e)
    refine ⟨keys_allocated_of_subset r _ h3 (fun e he => h1 ▸ he) h.1, ?_⟩
    unfold get_logger_names
    rw [h1]; exact h.2

/-- A step that is no move of a logger the map holds keeps every key equal to the name
of its logger. -/
theorem program_step_named (r : Registry) (op : program_op) (ops : List program_op)
    (h : keys_named r) (hspare : moves_spare_registered r (op :: ops) = true) :
    keys_named (program_step r op) ∧
      moves_spare_registered (program_step r op) ops = true := by
  have hsplit : move_spares r op = true
      ∧ moves_spare_registered (program_step r op) ops = true := by
    have : moves_spare_registered r (op :: ops)
        = (move_spares r op && moves_spare_registered (program_step r op) ops) := rfl
    rw [this, Bool.and_eq_true] at hspare
    exact hspare
  refine ⟨?_, hsplit.2⟩
  have hcond := hsplit.1
  cases op with
  | registry rop => exact keys_named_step r rop h
  | move_construct src =>
    have hsrc : registered r src = false := by simpa [move_spares] using hcond
    obtain ⟨h1, -, -⟩ := move_step_frame r (program_op.move_construct src)
      (fun rop e => by cases e)
    intro e he
    rw [h1] at he
    obtain ⟨p, lg, hp, hlg, hname⟩ := h e he
    refine ⟨p, lg, hp, (move_step_get r p lg hlg).1 src ?_, hname⟩
    intro hps
    exact not_registered r src hsrc e he (hps ▸ hp)
  | move_assign dst src =>
    have hds : dst = src ∨ (registered r dst = false ∧ registered r src = false) := by
      simpa [move_spares] using hcond
    obtain ⟨h1, -, -⟩ := move_step_frame r (program_op.move_assign dst src)
      (fun rop e => by cases e)
    intro e he
    rw [h1] at he
    obtain ⟨p, lg, hp, hlg, hname⟩ := h e he
    refine ⟨p, lg, hp, (move_step_get r p lg hlg).2 dst src ?_, hname⟩
    rcases hds with hsame | ⟨hd, hs⟩
    · exact Or.inl hsame
    · exact Or.inr ⟨fun hpd => not_registered r dst hd e he (hpd ▸ hp),
        fun hps => not_registered r src hs e he (hps ▸ hp)⟩

theorem run_program_keys (ops : List program_op) :
    ∀ r : Registry, keys_allocated r ∧ (get_logger_names r).Nodup →
      keys_allocated (run_program r ops) ∧ (get_logger_names (run_program r ops)).Nodup := by
  induction ops with
  | nil => intro r h; exact h
  | cons op ops ih => intro r h; exact ih _ (program_step_keys r op h)

theorem run_program_named (ops : List program_op) :
    ∀ r : Registry, keys_named r → moves_spare_registered r ops = true →
      keys_named (run_program r ops) := by
  induction ops with
  | nil => intro r h _; exact h
  | cons op ops ih =>
    intro r h hspare
    obtain ⟨h1, h2⟩ := program_step_named r op ops h hspare
    exact ih _ h1 h2

/-- C19, as amended: in every state reached from the empty registry by the operations
on the registry and by moves, every entry of the map holds a pointer that is not null to
an allocated logger and `get_logger_names` returns every key exactly once; and when no
move of the run has moved from, or assigned to, a logger that the map held at the time,
every entry is stored under a key equal to the `get_name()` of its logger. -/
theorem reachable_program_keys (gen : Nat → Nat) (ops : List program_op) :
    (moves_spare_registered (empty_registry gen) ops = true →
      ∀ e ∈ (run_program (empty_registry gen) ops).loggers,
        ∃ p lg, e.2 = some p ∧
          (run_program (empty_registry gen) ops).heap[p]? = some lg ∧ get_name lg = e.1) ∧
    (∀ e ∈ (run_program (empty_registry gen) ops).loggers,
      ∃ p lg, e.2 = some p ∧ (run_program (empty_registry gen) ops).heap[p]? = some lg) ∧
    (∀ e ∈ (run_program (empty_registry gen) ops).loggers,
      (get_logger_names (run_program (empty_registry gen) ops)).count e.1 = 1) ∧
    (∀ name, name ∈ get_logger_names (run_program (empty_registry gen) ops) ↔
      map_find (run_program (empty_registry gen) ops).loggers name ≠ none) := by
  obtain ⟨halloc, hnodup⟩ := run_program_keys ops (empty_registry gen)
    ⟨fun e he => by simp [empty_registry] at he, List.nodup_nil⟩
  refine ⟨fun hspare => run_program_named ops _ (registry_inv_empty gen).2.1 hspare,
    fun e he => ?_, fun e he => ?_, fun name => ?_⟩
  · obtain ⟨p, h1, h2⟩ := halloc e he
    exact ⟨p, _, h1, List.getElem?_eq_getElem h2⟩
  · exact count_eq_one_of_nodup _ _ hnodup (List.mem_map.2 ⟨e, he, rfl⟩)
  · rw [Ne, map_find_none_iff, not_not]
    rfl

/-- A run with a move construction and a move assignment, both between loggers that the
map does not hold. -/
theorem reachable_program_keys_witness :
    ∀ e ∈ (run_program (empty_registry (fun n => n)) demo_program).loggers,
      ∃ p lg, e.2 = some p ∧
        (run_program (empty_registry (fun n => n)) demo_program).heap[p]? = some lg ∧
        get_name lg = e.1 :=
  (reachable_program_keys (fun n => n) demo_program).1 (by decide)

/-- C19 as stated fails: after `create_logger("x")`, the construction of a logger by
move from the logger returned, which is no move assignment, leaves the entry of `x`
with a logger whose `get_name()` is empty. -/
theorem moved_from_registered_logger :
    (∀ dst src, program_op.move_assign dst src ∉ demo_program_moved) ∧
    (run_program (empty_registry (fun n => n)) demo_program_moved).loggers
      = [("x".toList, some 0)] ∧
    ((run_program (empty_registry (fun n => n)) demo_program_moved).heap.map get_name)
      = ["".toList, "x".toList] ∧
    ¬ (∀ e ∈ (run_program (empty_registry (fun n => n)) demo_program_moved).loggers,
        ∃ p lg, e.2 = some p ∧
          (run_program (empty_registry (fun n => n)) demo_program_moved).heap[p]? = some lg ∧
          get_name lg = e.1) := by
  have hmap : (run_program (empty_registry (fun n => n)) demo_program_moved).loggers
      = [("x".toList, some 0)] := by decide
  have hheap : (run_program (empty_registry (fun n => n)) demo_program_moved).heap[0]?
      = some (moved_from (new "x".toList level.info true)) := by decide
  refine ⟨fun dst src h => ?_, hmap, by decide, fun hall => ?_⟩
  · simp [demo_program_moved] at h
  · obtain ⟨p, lg, hp, hlg, hname⟩ := hall ("x".toList, some 0) (by rw [hmap]; simp)
    have hp0 : p = 0 := by simpa using hp.symm
    subst hp0
    rw [hheap] at hlg
    have : lg = moved_from (new "x".toList level.info true) := by simpa using hlg.symm
    subst this
    revert hname
    decide

end chromalog
